import Mathlib

/-!
Shallow embedding of `create_schedule.py` (weekly physician schedule →
iCalendar generator) and verification of the specification's claims.

Conventions of the embedding:
* Python `dict`s are insertion-ordered association lists (`List (k × v)`):
  lookup returns the first binding, assignment updates a binding in place or
  appends a new one at the end, and iteration follows the list order.
* Python `datetime` values are midnight-normalized dates (`Date`) or a date
  with an hour/minute (`DT`); the proleptic Gregorian calendar of the
  `datetime` module is modelled by `daysInMonth` / `rataDie` / `nextDay`.
* Machine text is modelled over Lean `String`/`Char`.  Python's
  Unicode-aware `str.isalnum` is modelled by `pyIsAlnum`, exact on every
  code point of the Latin-1 range (U+0000–U+00FF); all character data of
  the development stays inside that range.  Whitespace classification is
  the ASCII fragment, on which it agrees with Python's.
* The wall clock read by `datetime.now(UTC).strftime(...)` is a parameter
  `now : String` (the already-formatted stamp), one instant per run.
* Raisable exceptions (`KeyError` from `sessions["AM"]`, `ValueError` from
  `int(...)`) are modelled with `Except PyError`.
-/

namespace CreateSchedule

/-- Exceptions of the Python runtime that the embedded code can raise. -/
inductive PyError where
  | keyError : String → PyError
  | valueError : String → PyError
deriving DecidableEq, Repr

instance {ε α : Type} [DecidableEq ε] [DecidableEq α] :
    DecidableEq (Except ε α) := fun x y =>
  match x, y with
  | .error a, .error b =>
    if h : a = b then .isTrue (by rw [h]) else .isFalse (by simp [h])
  | .error _, .ok _ => .isFalse (by simp)
  | .ok _, .error _ => .isFalse (by simp)
  | .ok a, .ok b =>
    if h : a = b then .isTrue (by rw [h]) else .isFalse (by simp [h])

/-- Python dict lookup (`d.get(k)` / `d[k]` after a containment check):
the first binding for the key, if any. -/
def pyGet {α β : Type} [BEq α] : List (α × β) → α → Option β
  | [], _ => none
  | (k, v) :: rest, key => if k == key then some v else pyGet rest key

/-- Python dict assignment `d[k] = v`: update the binding in place when the
key is present, append a new binding at the end otherwise. -/
def pyInsert {α β : Type} [BEq α] : List (α × β) → α → β → List (α × β)
  | [], key, val => [(key, val)]
  | (k, v) :: rest, key, val =>
    if k == key then (k, val) :: rest else (k, v) :: pyInsert rest key val

/-- Python `str.strip()` (ASCII whitespace fragment). -/
def pyStrip (s : String) : String :=
  String.mk (((s.data.dropWhile Char.isWhitespace).reverse.dropWhile
    Char.isWhitespace).reverse)

/-- Python `str.upper()` (ASCII fragment). -/
def pyUpper (s : String) : String :=
  String.mk (s.data.map Char.toUpper)

/-- A midnight-normalized `datetime` value: a calendar date. -/
structure Date where
  year : Nat
  month : Nat
  day : Nat
deriving DecidableEq, Repr

/-- Gregorian leap-year rule used by Python's `datetime`. -/
def isLeap (y : Nat) : Bool :=
  (y % 4 == 0 && y % 100 != 0) || (y % 400 == 0)

/-- Length in days of month `m` of year `y`. -/
def daysInMonth (y m : Nat) : Nat :=
  if m = 2 then (if isLeap y then 29 else 28)
  else if m = 4 ∨ m = 6 ∨ m = 9 ∨ m = 11 then 30
  else 31

/-- The dates representable by Python's `datetime` (years 1–9999). -/
def ValidDate (d : Date) : Prop :=
  1 ≤ d.year ∧ d.year ≤ 9999 ∧ 1 ≤ d.month ∧ d.month ≤ 12 ∧
    1 ≤ d.day ∧ d.day ≤ daysInMonth d.year d.month

instance : DecidablePred ValidDate := fun d => by
  unfold ValidDate; infer_instance

/-- Days of year `y` that precede month `m`. -/
def daysBeforeMonth (y m : Nat) : Nat :=
  ((List.range (m - 1)).map (fun k => daysInMonth y (k + 1))).sum

/-- Day count of a date from the proleptic Gregorian epoch
(0001-01-01 ↦ 1); date subtraction and ordering of `datetime` values
are differences and comparisons of this count. -/
def rataDie (d : Date) : Nat :=
  365 * (d.year - 1) + (d.year - 1) / 4 - (d.year - 1) / 100 +
    (d.year - 1) / 400 + daysBeforeMonth d.year d.month + d.day

/-- Python `date.weekday()`: Monday = 0 … Sunday = 6. -/
def pyWeekday (d : Date) : Nat := (rataDie d + 6) % 7

/-- `current_date + timedelta(days=1)`. -/
def nextDay (d : Date) : Date :=
  if d.day < daysInMonth d.year d.month then ⟨d.year, d.month, d.day + 1⟩
  else if d.month < 12 then ⟨d.year, d.month + 1, 1⟩
  else ⟨d.year + 1, 1, 1⟩

/-- `n` consecutive dates starting at `d`. -/
def dateSeq : Date → Nat → List Date
  | _, 0 => []
  | d, n + 1 => d :: dateSeq (nextDay d) n

/-- The dates visited by the `while current_date <= end_date` loop of
`generate_events`, in visiting order. -/
def rangeDates (s e : Date) : List Date :=
  dateSeq s (rataDie e + 1 - rataDie s)

/-- Decimal digit character for `n % 10`. -/
def digit (n : Nat) : Char := Char.ofNat (48 + n % 10)

/-- `strftime('%Y%m%d')`: the eight-character zero-padded date field. -/
def fmtYmd (d : Date) : String :=
  String.mk [digit (d.year / 1000), digit (d.year / 100), digit (d.year / 10),
    digit d.year, digit (d.month / 10), digit d.month, digit (d.day / 10),
    digit d.day]

/-- `strftime('%Y%m%dT%H%M%S')` for a time with zero seconds. -/
def fmtDT (d : Date) (h mi : Nat) : String :=
  String.mk [digit (d.year / 1000), digit (d.year / 100), digit (d.year / 10),
    digit d.year, digit (d.month / 10), digit d.month, digit (d.day / 10),
    digit d.day, 'T', digit (h / 10), digit h, digit (mi / 10), digit mi,
    '0', '0']

/-- Python's Unicode-aware `str.isalnum`, exact on the Latin-1 range
(code points ≤ U+00FF): the ASCII letters and digits, the Latin-1
letters `À`–`Ö`, `Ø`–`ö`, `ø`–`ÿ` (U+00C0–U+00FF minus `×` U+00D7 and
`÷` U+00F7), the letters `ª` U+00AA, `µ` U+00B5, `º` U+00BA, and the
numeric characters `²` `³` `¹` `¼` `½` `¾`.  All character data of this
development lies in the Latin-1 range. -/
def pyIsAlnum (c : Char) : Bool :=
  let n := c.toNat
  c.isAlphanum ||
  (decide (0xC0 ≤ n) && decide (n ≤ 0xFF) && !(n == 0xD7) &&
    !(n == 0xF7)) ||
  n == 0xAA || n == 0xB2 || n == 0xB3 || n == 0xB5 || n == 0xB9 ||
  n == 0xBA || n == 0xBC || n == 0xBD || n == 0xBE

/-- Characters kept by `sanitize_uid`:
`c.isalnum() or c in ("-", "_")`. -/
def allowedChar (c : Char) : Bool :=
  pyIsAlnum c || c == '-' || c == '_'

/-- The character set the specification names for UID sanitization:
`A`–`Z`, `a`–`z`, `0`–`9`, hyphen and underscore.  Modelled from the
spec's words, to be compared with `allowedChar`. -/
def claimedChar (c : Char) : Bool :=
  (decide ('A' ≤ c) && decide (c ≤ 'Z')) ||
  (decide ('a' ≤ c) && decide (c ≤ 'z')) ||
  (decide ('0' ≤ c) && decide (c ≤ '9')) || c == '-' || c == '_'

/-- `sanitize_uid` of `create_schedule.py`. -/
def sanitize_uid (text : String) : String :=
  pyStrip (String.mk (text.data.filter allowedChar))

/-- A `datetime` with a time of day (seconds are always zero here). -/
structure DT where
  date : Date
  hour : Nat
  minute : Nat
deriving DecidableEq, Repr

/-- `create_event` of `create_schedule.py`; `now` is the formatted
`DTSTAMP` value read from the wall clock. -/
def create_event (now uid : String) (start stop : DT) (location : String) :
    List String :=
  ["BEGIN:VEVENT",
   "UID:" ++ sanitize_uid uid,
   "DTSTAMP:" ++ now,
   "DTSTART:" ++ fmtDT start.date start.hour start.minute,
   "DTEND:" ++ fmtDT stop.date stop.hour stop.minute,
   "SUMMARY:" ++ location,
   "LOCATION:" ++ location,
   "X-APPLE-TRAVEL-ADVISORY-BEHAVIOR:DISABLED",
   "END:VEVENT"]

/-- The sessions of one weekday in one week of the template:
`{"AM": label, "PM": label}` with optional keys. -/
abbrev Sessions := List (String × String)

/-- One week of the template: weekday name ↦ sessions. -/
abbrev DayDict := List (String × Sessions)

/-- The normalized template: week-of-month ↦ weekday name ↦ sessions.
Week keys are `int` values produced by `int(row["Week"])`. -/
abbrev Schedule := List (Int × DayDict)

/-- `WEEKDAY_MAP` of `create_schedule.py`. -/
def WEEKDAY_MAP : List (String × Nat) :=
  [("Mon", 0), ("Tues", 1), ("Wed", 2), ("Thur", 3), ("Fri", 4)]

/-- `get_week_number_in_month` of `create_schedule.py`:
`date.replace(day=1)`, day difference, `// 7 + 1`. -/
def get_week_number_in_month (date : Date) : Nat :=
  (rataDie date - rataDie ⟨date.year, date.month, 1⟩) / 7 + 1

/-- `[k for k, v in WEEKDAY_MAP.items() if v == weekday][0]` (the guard
`weekday < 5` makes the match list nonempty). -/
def weekdayName (wd : Nat) : String :=
  ((WEEKDAY_MAP.filter (fun p => p.2 == wd)).map Prod.fst).headD ""

/-- The body of the `while` loop of `generate_events` for one date:
the lines contributed by `current_date`, or the `KeyError` raised by
`sessions["AM"]` when the merged branch finds no `"AM"` key. -/
def dayEvents (now : String) (schedule : Schedule) (current : Date) :
    Except PyError (List String) :=
  if pyWeekday current < 5 then
    match pyGet schedule (Int.ofNat (get_week_number_in_month current)) with
    | none => .ok []
    | some dayDict =>
      match pyGet dayDict (weekdayName (pyWeekday current)) with
      | none => .ok []
      | some sessions =>
        if pyGet sessions "AM" == pyGet sessions "PM" then
          match pyGet sessions "AM" with
          | none => .error (PyError.keyError "AM")
          | some location =>
            .ok (create_event now
              (fmtDT current 8 0 ++ "-" ++ location ++ "@schedule")
              ⟨current, 8, 0⟩ ⟨current, 17, 0⟩ location)
        else
          .ok ((sessions.map (fun sl =>
            if sl.1 == "AM" then
              create_event now
                (fmtDT current 8 0 ++ "-" ++ sl.2 ++ "@schedule")
                ⟨current, 8, 0⟩ ⟨current, 12, 0⟩ sl.2
            else
              create_event now
                (fmtDT current 13 0 ++ "-" ++ sl.2 ++ "@schedule")
                ⟨current, 13, 0⟩ ⟨current, 17, 0⟩ sl.2)).flatten)
  else .ok []

/-- `generate_events` of `create_schedule.py`: the flat list of event lines
for every date of the inclusive range, in visiting order. -/
def generate_events (start_date end_date : Date) (schedule : Schedule)
    (now : String) : Except PyError (List String) := do
  let dayLists ← (rangeDates start_date end_date).mapM
    (dayEvents now schedule)
  return dayLists.flatten

/-- The `ics_lines` list built by `generate_ics`. -/
def generate_ics_lines (start_date end_date : Date) (schedule : Schedule)
    (now : String) : Except PyError (List String) := do
  let evs ← generate_events start_date end_date schedule now
  return ["BEGIN:VCALENDAR", "VERSION:2.0",
    "PRODID:-//Schedule Generator//EN", "CALSCALE:GREGORIAN"] ++ evs ++
    ["END:VCALENDAR"]

/-- `generate_ics` of `create_schedule.py`: `"\n".join(ics_lines)`. -/
def generate_ics (start_date end_date : Date) (schedule : Schedule)
    (now : String) : Except PyError String := do
  let ls ← generate_ics_lines start_date end_date schedule now
  return String.intercalate "\n" ls

/-- One row of the input dataframe: the `Week` cell (as entered, before
`int` conversion), the `AM/PM` cell, and one cell per weekday column. -/
structure Row where
  week : String
  ampm : String
  mon : String
  tues : String
  wed : String
  thur : String
  fri : String
deriving DecidableEq, Repr

/-- `row[day]` for a weekday column name. -/
def rowCell (r : Row) (day : String) : String :=
  if day == "Mon" then r.mon
  else if day == "Tues" then r.tues
  else if day == "Wed" then r.wed
  else if day == "Thur" then r.thur
  else r.fri

/-- Python `int(s)` on a string: optional surrounding whitespace, optional
sign, decimal digits; anything else raises `ValueError`. -/
def pyInt (s : String) : Except PyError Int :=
  let t := (pyStrip s).data
  let signed : Int × List Char :=
    match t with
    | '-' :: rest => (-1, rest)
    | '+' :: rest => (1, rest)
    | _ => (1, t)
  if !signed.2.isEmpty && signed.2.all Char.isDigit then
    .ok (signed.1 *
      (signed.2.foldl (fun acc c => 10 * acc + (c.toNat - 48)) 0 : Nat))
  else .error (PyError.valueError s)

/-- `WEEKDAY_MAP.keys()` in iteration order. -/
def WEEKDAY_KEYS : List String := WEEKDAY_MAP.map Prod.fst

/-- One iteration of the `for day in WEEKDAY_MAP.keys()` loop of
`build_schedule_from_df`: ensure the weekday key, then store the stripped
cell under the session key when non-empty. -/
def buildDayStep (week : Int) (ampm : String) (row : Row)
    (sched : Schedule) (day : String) : Schedule :=
  let dayDict := (pyGet sched week).getD []
  let dayDict :=
    if (pyGet dayDict day).isNone then pyInsert dayDict day [] else dayDict
  let value := pyStrip (rowCell row day)
  let dayDict :=
    if value == "" then dayDict
    else pyInsert dayDict day
      (pyInsert ((pyGet dayDict day).getD []) ampm value)
  pyInsert sched week dayDict

/-- The inner `for day in WEEKDAY_MAP.keys()` loop of
`build_schedule_from_df`, acting on the schedule for one row whose week
key is already present. -/
def buildRowDays (week : Int) (ampm : String) (row : Row)
    (schedule : Schedule) : Schedule :=
  WEEKDAY_KEYS.foldl (buildDayStep week ampm row) schedule

/-- `build_schedule_from_df` of `create_schedule.py`. -/
def build_schedule_from_df (df : List Row) : Except PyError Schedule :=
  df.foldlM (fun schedule row => do
    let week ← pyInt row.week
    let ampm := pyUpper (pyStrip row.ampm)
    let schedule :=
      if (pyGet schedule week).isNone then pyInsert schedule week []
      else schedule
    return buildRowDays week ampm row schedule) ([] : Schedule)

/-- Descriptor of one emitted event: its date, start hour, end hour and
label (start and end minutes are always zero). Used to state and prove
properties of the generated line lists. -/
structure Ev where
  date : Date
  sh : Nat
  eh : Nat
  loc : String
deriving DecidableEq, Repr

/-- The `uid` string built at each emission site of `generate_events`. -/
def evUid (v : Ev) : String :=
  fmtDT v.date v.sh 0 ++ "-" ++ v.loc ++ "@schedule"

/-- The nine lines `create_event` returns for one event descriptor. -/
def evBlock (now : String) (v : Ev) : List String :=
  create_event now (evUid v) ⟨v.date, v.sh, 0⟩ ⟨v.date, v.eh, 0⟩ v.loc

/-- The line list for a list of event descriptors. -/
def render (now : String) (evs : List Ev) : List String :=
  (evs.map (evBlock now)).flatten

/-- Descriptor-level view of `dayEvents`: the events one date contributes,
`none` when the `KeyError` is raised. -/
def dayEvs (schedule : Schedule) (current : Date) : Option (List Ev) :=
  if pyWeekday current < 5 then
    match pyGet schedule (Int.ofNat (get_week_number_in_month current)) with
    | none => some []
    | some dayDict =>
      match pyGet dayDict (weekdayName (pyWeekday current)) with
      | none => some []
      | some sessions =>
        if pyGet sessions "AM" == pyGet sessions "PM" then
          match pyGet sessions "AM" with
          | none => none
          | some location => some [⟨current, 8, 17, location⟩]
        else
          some (sessions.map (fun sl =>
            if sl.1 == "AM" then ⟨current, 8, 12, sl.2⟩
            else ⟨current, 13, 17, sl.2⟩))
  else some []

/-- Descriptor-level view of `generate_events`. -/
def allEvs (schedule : Schedule) (s e : Date) : Option (List Ev) :=
  ((rangeDates s e).mapM (dayEvs schedule)).map List.flatten

/-- Session maps conforming to the data model, with the `"AM"` key
inserted before the `"PM"` key when both are present (the order produced
by the app's fixed AM-then-PM grid rows). -/
def sessKeysOK (ss : Sessions) : Prop :=
  ss.map Prod.fst ∈ [([] : List String), ["AM"], ["PM"], ["AM", "PM"]]

/-- Session maps conforming to the data model: keys drawn from
`{"AM", "PM"}`, without duplicates, in either order. -/
def sessAMPM (ss : Sessions) : Prop :=
  (ss.map Prod.fst).Nodup ∧ ∀ k ∈ ss.map Prod.fst, k = "AM" ∨ k = "PM"

/-- Every session map reachable in a template is AM-first well formed. -/
def schedOK (sch : Schedule) : Prop :=
  ∀ w dd, pyGet sch w = some dd → ∀ a ss, pyGet dd a = some ss → sessKeysOK ss

/-- Every label stored in a template is non-empty and whitespace-trimmed. -/
def ValuesOK (sched : Schedule) : Prop :=
  ∀ w dd, pyGet sched w = some dd → ∀ dn ss, pyGet dd dn = some ss →
    ∀ kv ∈ ss, kv.2 ≠ "" ∧ pyStrip kv.2 = kv.2

/-- Every week of a template carries all five weekday keys. -/
def WeeksComplete (sched : Schedule) : Prop :=
  ∀ w dd, pyGet sched w = some dd →
    ∀ day ∈ WEEKDAY_KEYS, (pyGet dd day).isSome = true

/-- `dayEvents` is the rendering of the descriptor-level `dayEvs`. -/
theorem dayEvents_eq (now : String) (schedule : Schedule) (current : Date) :
    dayEvents now schedule current =
      match dayEvs schedule current with
      | none => .error (PyError.keyError "AM")
      | some evs => .ok (render now evs) := by
  have hcong : ∀ sl : String × String,
      evBlock now (if sl.1 == "AM" then (⟨current, 8, 12, sl.2⟩ : Ev)
        else ⟨current, 13, 17, sl.2⟩) =
      (if sl.1 == "AM" then
        create_event now
          (fmtDT current 8 0 ++ "-" ++ sl.2 ++ "@schedule")
          ⟨current, 8, 0⟩ ⟨current, 12, 0⟩ sl.2
      else
        create_event now
          (fmtDT current 13 0 ++ "-" ++ sl.2 ++ "@schedule")
          ⟨current, 13, 0⟩ ⟨current, 17, 0⟩ sl.2) := by
    intro sl
    by_cases h : sl.1 == "AM" <;> simp [h, evBlock, evUid]
  unfold dayEvents dayEvs
  by_cases h5 : pyWeekday current < 5
  · simp only [if_pos h5]
    split
    · rfl
    · split
      · rfl
      · split
        · split
          · rfl
          · rfl
        · simp only [render, List.map_map, Function.comp_def, hcong]
  · simp [h5, render]

/-- Rendering commutes with flattening. -/
theorem render_flatten (now : String) (l : List (List Ev)) :
    render now l.flatten = (l.map (render now)).flatten := by
  induction l with
  | nil => rfl
  | cons a rest ih =>
    simp [render, List.map_append, List.flatten_append] at ih ⊢
    exact ih

/-- `mapM` of the line-level day function is the rendering of `mapM` of
the descriptor-level day function. -/
theorem mapM_dayEvents_eq (now : String) (schedule : Schedule) :
    ∀ ds : List Date,
      ds.mapM (dayEvents now schedule) =
        match ds.mapM (dayEvs schedule) with
        | none => .error (PyError.keyError "AM")
        | some ls => .ok (ls.map (render now)) := by
  intro ds
  induction ds with
  | nil => rfl
  | cons d rest ih =>
    rw [List.mapM_cons, List.mapM_cons, dayEvents_eq]
    cases hd : dayEvs schedule d with
    | none => rfl
    | some evs =>
      rw [ih]
      cases hrest : rest.mapM (dayEvs schedule) with
      | none => rfl
      | some ls => rfl

/-- `generate_events` is the rendering of the descriptor list `allEvs`. -/
theorem generate_events_eq (s e : Date) (schedule : Schedule)
    (now : String) :
    generate_events s e schedule now =
      match allEvs schedule s e with
      | none => .error (PyError.keyError "AM")
      | some evs => .ok (render now evs) := by
  unfold generate_events allEvs
  rw [show ((rangeDates s e).mapM (dayEvents now schedule) >>=
      fun dayLists => pure dayLists.flatten : Except PyError _) =
      _ from rfl]
  rw [mapM_dayEvents_eq]
  cases h : (rangeDates s e).mapM (dayEvs schedule) with
  | none => rfl
  | some ls =>
    simp [render_flatten]

/-- Every month has at least one day. -/
theorem daysInMonth_pos (y m : Nat) : 1 ≤ daysInMonth y m := by
  unfold daysInMonth
  split
  · split <;> omega
  · split <;> omega

/-- No month has more than 31 days. -/
theorem daysInMonth_le (y m : Nat) : daysInMonth y m ≤ 31 := by
  unfold daysInMonth
  split
  · split <;> omega
  · split <;> omega

/-- Unfolding step for the cumulative month-length table. -/
theorem daysBeforeMonth_succ (y m : Nat) (hm : 1 ≤ m) :
    daysBeforeMonth y (m + 1) = daysBeforeMonth y m + daysInMonth y m := by
  unfold daysBeforeMonth
  have h1 : m + 1 - 1 = (m - 1) + 1 := by omega
  rw [h1, List.range_succ, List.map_append, List.sum_append]
  have h2 : m - 1 + 1 = m := by omega
  simp [h2]

/-- January is preceded by no days. -/
theorem daysBeforeMonth_one (y : Nat) : daysBeforeMonth y 1 = 0 := rfl

/-- Days of the year before December plus December's length. -/
theorem daysBeforeMonth_twelve (y : Nat) :
    daysBeforeMonth y 12 = 334 + (if isLeap y then 1 else 0) := by
  unfold daysBeforeMonth
  norm_num [List.range_succ, daysInMonth]
  split <;> omega

/-- Year-rollover arithmetic: the day-count delta of one year equals 365
plus the leap correction. -/
theorem yearRoll (y : Nat) (hy : 1 ≤ y) :
    365 * y + y / 4 - y / 100 + y / 400 + 1 =
    365 * (y - 1) + (y - 1) / 4 - (y - 1) / 100 + (y - 1) / 400 +
      (334 + (if isLeap y then 1 else 0)) + 31 + 1 := by
  have e4 : y / 4 = (y - 1) / 4 + if y % 4 = 0 then 1 else 0 := by
    by_cases h : y % 4 = 0
    · rw [if_pos h]; omega
    · rw [if_neg h]; omega
  have e100 : y / 100 = (y - 1) / 100 + if y % 100 = 0 then 1 else 0 := by
    by_cases h : y % 100 = 0
    · rw [if_pos h]; omega
    · rw [if_neg h]; omega
  have e400 : y / 400 = (y - 1) / 400 + if y % 400 = 0 then 1 else 0 := by
    by_cases h : y % 400 = 0
    · rw [if_pos h]; omega
    · rw [if_neg h]; omega
  have hiff : isLeap y = true ↔ ((y % 4 = 0 ∧ ¬ y % 100 = 0) ∨ y % 400 = 0) := by
    simp [isLeap, Bool.or_eq_true, Bool.and_eq_true, beq_iff_eq, bne_iff_ne]
  rw [e4, e100, e400]
  by_cases hl : isLeap y = true
  · rw [if_pos hl]
    have hla : (y % 4 = 0 ∧ ¬ y % 100 = 0) ∨ y % 400 = 0 := hiff.mp hl
    by_cases h4 : y % 4 = 0 <;> by_cases h100 : y % 100 = 0 <;>
      by_cases h400 : y % 400 = 0 <;>
      (first | rw [if_pos h4] | rw [if_neg h4]) <;>
      (first | rw [if_pos h100] | rw [if_neg h100]) <;>
      (first | rw [if_pos h400] | rw [if_neg h400]) <;> omega
  · rw [if_neg hl]
    have hla : ¬ ((y % 4 = 0 ∧ ¬ y % 100 = 0) ∨ y % 400 = 0) :=
      fun hc => hl (hiff.mpr hc)
    by_cases h4 : y % 4 = 0 <;> by_cases h100 : y % 100 = 0 <;>
      by_cases h400 : y % 400 = 0 <;>
      (first | rw [if_pos h4] | rw [if_neg h4]) <;>
      (first | rw [if_pos h100] | rw [if_neg h100]) <;>
      (first | rw [if_pos h400] | rw [if_neg h400]) <;> omega

/-- Stepping one day forward increments the day count by one. -/
theorem rataDie_nextDay {d : Date} (h : ValidDate d) :
    rataDie (nextDay d) = rataDie d + 1 := by
  obtain ⟨hy1, hy2, hm1, hm2, hd1, hd2⟩ := h
  unfold nextDay
  by_cases hlt : d.day < daysInMonth d.year d.month
  · simp only [if_pos hlt]
    unfold rataDie
    dsimp only
    omega
  · simp only [if_neg hlt]
    by_cases hm12 : d.month < 12
    · simp only [if_pos hm12]
      have hseq := daysBeforeMonth_succ d.year d.month hm1
      unfold rataDie
      dsimp only
      omega
    · simp only [if_neg hm12]
      have hm : d.month = 12 := by omega
      have h31 : daysInMonth d.year 12 = 31 := by simp [daysInMonth]
      have h12 := daysBeforeMonth_twelve d.year
      have h1 := daysBeforeMonth_one (d.year + 1)
      unfold rataDie
      dsimp only
      rw [hm] at hd2 hlt ⊢
      have hday : d.day = 31 := by omega
      rw [h1, h12, hday, Nat.add_sub_cancel]
      have := yearRoll d.year hy1
      omega

/-- Every date of a fully valid cursor sequence lies at or after its
start in day count. -/
theorem rataDie_le_of_mem_dateSeq :
    ∀ (n : Nat) (d x : Date), x ∈ dateSeq d n →
      (∀ y ∈ dateSeq d n, ValidDate y) → rataDie d ≤ rataDie x := by
  intro n
  induction n with
  | zero => intro d x hx _; simp [dateSeq] at hx
  | succ n ih =>
    intro d x hx hall
    simp only [dateSeq, List.mem_cons] at hx
    rcases hx with rfl | hx
    · exact le_refl _
    · have hd : ValidDate d := hall d (by simp [dateSeq])
      have htail : ∀ y ∈ dateSeq (nextDay d) n, ValidDate y := by
        intro y hy; exact hall y (by simp [dateSeq, hy])
      have := ih (nextDay d) x hx htail
      rw [rataDie_nextDay hd] at this
      omega

/-- A fully valid cursor sequence visits no date twice. -/
theorem dateSeq_nodup :
    ∀ (n : Nat) (d : Date), (∀ y ∈ dateSeq d n, ValidDate y) →
      (dateSeq d n).Nodup := by
  intro n
  induction n with
  | zero => intro d _; simp [dateSeq]
  | succ n ih =>
    intro d hall
    have hd : ValidDate d := hall d (by simp [dateSeq])
    have htail : ∀ y ∈ dateSeq (nextDay d) n, ValidDate y := by
      intro y hy; exact hall y (by simp [dateSeq, hy])
    simp only [dateSeq, List.nodup_cons]
    refine ⟨fun hmem => ?_, ih (nextDay d) htail⟩
    have := rataDie_le_of_mem_dateSeq n (nextDay d) d hmem htail
    rw [rataDie_nextDay hd] at this
    omega

/-- The day counts of a fully valid cursor sequence strictly increase. -/
theorem dateSeq_chain :
    ∀ (n : Nat) (d : Date), (∀ y ∈ dateSeq d n, ValidDate y) →
      List.Chain' (fun a b => rataDie a < rataDie b) (dateSeq d n) := by
  intro n
  induction n with
  | zero => intro d _; simp [dateSeq]
  | succ n ih =>
    intro d hall
    have hd : ValidDate d := hall d (by simp [dateSeq])
    have htail : ∀ y ∈ dateSeq (nextDay d) n, ValidDate y := by
      intro y hy; exact hall y (by simp [dateSeq, hy])
    rw [show dateSeq d (n + 1) = d :: dateSeq (nextDay d) n from rfl]
    refine List.chain'_cons'.mpr ⟨fun y hy => ?_, ih (nextDay d) htail⟩
    have hhead : y ∈ dateSeq (nextDay d) n := by
      cases n with
      | zero => simp [dateSeq] at hy
      | succ n =>
        rw [show dateSeq (nextDay d) (n + 1) =
          nextDay d :: dateSeq (nextDay (nextDay d)) n from rfl] at hy ⊢
        simp only [List.head?_cons, Option.mem_def, Option.some.injEq] at hy
        simp [← hy]
    have := rataDie_le_of_mem_dateSeq n (nextDay d) y hhead htail
    rw [rataDie_nextDay hd] at this
    omega

/-- Appending strings appends their character lists. -/
theorem data_append (s t : String) : (s ++ t).data = s.data ++ t.data := rfl

/-- Strings with equal character lists are equal. -/
theorem string_eq_of_data {s t : String} (h : s.data = t.data) : s = t := by
  cases s; cases t; exact congrArg String.mk h

/-- A digit character determines its argument modulo ten. -/
theorem digit_inj {a b : Nat} (h : digit a = digit b) : a % 10 = b % 10 := by
  have key : ∀ x, x < 10 → ∀ y, y < 10 →
      Char.ofNat (48 + x) = Char.ofNat (48 + y) → x = y := by decide
  exact key _ (Nat.mod_lt _ (by norm_num)) _ (Nat.mod_lt _ (by norm_num)) h

/-- The formatted timestamp determines the date (among `datetime`-valid
dates) and the hour and minute modulo 100. -/
theorem fmtDT_components {d d' : Date} {h mi h' mi' : Nat}
    (hd : ValidDate d) (hd' : ValidDate d')
    (heq : fmtDT d h mi = fmtDT d' h' mi') :
    d = d' ∧ h % 100 = h' % 100 ∧ mi % 100 = mi' % 100 := by
  obtain ⟨hy1, hy2, hm1, hm2, hd1, hd2⟩ := hd
  obtain ⟨hy1', hy2', hm1', hm2', hd1', hd2'⟩ := hd'
  have hdm := daysInMonth_le d.year d.month
  have hdm' := daysInMonth_le d'.year d'.month
  have hl : ([digit (d.year / 1000), digit (d.year / 100), digit (d.year / 10),
      digit d.year, digit (d.month / 10), digit d.month, digit (d.day / 10),
      digit d.day, 'T', digit (h / 10), digit h, digit (mi / 10), digit mi,
      '0', '0'] : List Char) =
      [digit (d'.year / 1000), digit (d'.year / 100), digit (d'.year / 10),
      digit d'.year, digit (d'.month / 10), digit d'.month, digit (d'.day / 10),
      digit d'.day, 'T', digit (h' / 10), digit h', digit (mi' / 10), digit mi',
      '0', '0'] := congrArg String.data heq
  injection hl with c1 hl
  injection hl with c2 hl
  injection hl with c3 hl
  injection hl with c4 hl
  injection hl with c5 hl
  injection hl with c6 hl
  injection hl with c7 hl
  injection hl with c8 hl
  injection hl with cT hl
  injection hl with c9 hl
  injection hl with c10 hl
  injection hl with c11 hl
  injection hl with c12 hl
  have e1 := digit_inj c1
  have e2 := digit_inj c2
  have e3 := digit_inj c3
  have e4 := digit_inj c4
  have e5 := digit_inj c5
  have e6 := digit_inj c6
  have e7 := digit_inj c7
  have e8 := digit_inj c8
  have e9 := digit_inj c9
  have e10 := digit_inj c10
  have e11 := digit_inj c11
  have e12 := digit_inj c12
  have hy : d.year = d'.year := by omega
  have hmo : d.month = d'.month := by omega
  have hda : d.day = d'.day := by omega
  refine ⟨?_, by omega, by omega⟩
  cases d; cases d'
  simp only at hy hmo hda
  simp [hy, hmo, hda]

/-- Two strings with a differing character under their literal head
segments are distinct. -/
theorem append_ne_append {p q : String} (a b : String) (i : Nat)
    (hip : i < p.data.length) (hiq : i < q.data.length)
    (hne : p.data[i]? ≠ q.data[i]?) : p ++ a ≠ q ++ b := by
  intro h
  apply hne
  have hd := congrArg String.data h
  rw [data_append p a, data_append q b] at hd
  have h1 : (p.data ++ a.data)[i]? = p.data[i]? :=
    List.getElem?_append_left hip
  have h2 : (q.data ++ b.data)[i]? = q.data[i]? :=
    List.getElem?_append_left hiq
  rw [← h1, ← h2, hd]

/-- Appending the empty string is the identity. -/
theorem append_empty_str (s : String) : s ++ "" = s := by
  apply string_eq_of_data
  rw [data_append]
  simp [String.data]

/-- Whitespace characters are never kept by the UID filter. -/
theorem ws_not_allowed {c : Char} (h : c.isWhitespace = true) :
    allowedChar c = false := by
  simp only [Char.isWhitespace, Bool.or_eq_true, decide_eq_true_eq] at h
  rcases h with ((rfl | rfl) | rfl) | rfl <;> decide

/-- Kept characters are never whitespace. -/
theorem allowed_not_ws {c : Char} (h : allowedChar c = true) :
    c.isWhitespace = false := by
  by_contra hc
  rw [Bool.not_eq_false] at hc
  rw [ws_not_allowed hc] at h
  exact Bool.false_ne_true h

/-- `dropWhile` fixes lists whose every element fails the test. -/
theorem dropWhile_eq_self_of_none {p : Char → Bool} :
    ∀ l : List Char, (∀ c ∈ l, p c = false) → l.dropWhile p = l := by
  intro l h
  cases l with
  | nil => rfl
  | cons a t =>
    rw [List.dropWhile_cons, if_neg]
    rw [h a (by simp)]
    simp

/-- Stripping a string without whitespace is the identity. -/
theorem pyStrip_eq_self {l : List Char}
    (h : ∀ c ∈ l, c.isWhitespace = false) :
    pyStrip (String.mk l) = String.mk l := by
  unfold pyStrip
  rw [show (String.mk l).data = l from rfl]
  rw [dropWhile_eq_self_of_none l h]
  rw [dropWhile_eq_self_of_none l.reverse (by intro c hc; exact h c (by simpa using hc))]
  simp

/-- The sanitizer is exactly the filter keeping alphanumerics, hyphen and
underscore: the final `strip` never removes anything. -/
theorem sanitize_uid_eq_filter (s : String) :
    sanitize_uid s = String.mk (s.data.filter allowedChar) := by
  unfold sanitize_uid
  apply pyStrip_eq_self
  intro c hc
  exact allowed_not_ws (List.of_mem_filter hc)

section DictLemmas

variable {α β : Type} [BEq α] [LawfulBEq α]

/-- Assignment followed by lookup of the same key yields the value. -/
theorem pyGet_insert_self (d : List (α × β)) (k : α) (v : β) :
    pyGet (pyInsert d k v) k = some v := by
  induction d with
  | nil => simp [pyInsert, pyGet]
  | cons p rest ih =>
    obtain ⟨k', v'⟩ := p
    by_cases h : (k' == k) = true
    · simp [pyInsert, if_pos h, pyGet]
    · simp only [pyInsert, if_neg h, pyGet]
      exact ih

/-- Assignment leaves lookups of other keys alone. -/
theorem pyGet_insert_of_ne (d : List (α × β)) (k k2 : α) (v : β)
    (h : ¬ k2 = k) : pyGet (pyInsert d k v) k2 = pyGet d k2 := by
  induction d with
  | nil =>
    simp only [pyInsert, pyGet]
    rw [if_neg (fun hc => h (eq_of_beq hc).symm)]
  | cons p rest ih =>
    obtain ⟨k', v'⟩ := p
    by_cases hk : (k' == k) = true
    · simp only [pyInsert, if_pos hk, pyGet]
      by_cases hk2 : (k' == k2) = true
      · exact absurd ((eq_of_beq hk2).symm.trans (eq_of_beq hk)) h
      · rw [if_neg hk2, if_neg hk2]
    · simp only [pyInsert, if_neg hk, pyGet]
      by_cases hk2 : (k' == k2) = true
      · rw [if_pos hk2, if_pos hk2]
      · rw [if_neg hk2, if_neg hk2]
        exact ih

/-- A successful lookup locates a binding with the looked-up key. -/
theorem pyGet_mem {d : List (α × β)} {k : α} {v : β}
    (h : pyGet d k = some v) : (k, v) ∈ d := by
  induction d with
  | nil => simp [pyGet] at h
  | cons p rest ih =>
    obtain ⟨k', v'⟩ := p
    by_cases hk : (k' == k) = true
    · simp only [pyGet, if_pos hk] at h
      obtain rfl : v' = v := Option.some.inj h
      obtain rfl : k' = k := eq_of_beq hk
      exact List.mem_cons_self _ _
    · simp only [pyGet, if_neg hk] at h
      exact List.mem_cons_of_mem _ (ih h)

/-- Lookup succeeds exactly for keys of the dict. -/
theorem pyGet_isSome_iff {d : List (α × β)} {k : α} :
    (pyGet d k).isSome = true ↔ k ∈ d.map Prod.fst := by
  induction d with
  | nil => simp [pyGet]
  | cons p rest ih =>
    obtain ⟨k', v'⟩ := p
    by_cases hk : (k' == k) = true
    · obtain rfl : k' = k := eq_of_beq hk
      simp [pyGet, hk]
    · have hne : ¬ k = k' := fun hh => hk (hh ▸ beq_self_eq_true k')
      simp [pyGet, hk, ih, hne]

end DictLemmas

/-- Elements of a successful descriptor traversal come from the
per-day descriptors of a visited date. -/
theorem mapM_dayEvs_mem {sch : Schedule} :
    ∀ {ds : List Date} {yss : List (List Ev)},
      ds.mapM (dayEvs sch) = some yss →
      ∀ v ∈ yss.flatten, ∃ d ∈ ds, ∃ devs,
        dayEvs sch d = some devs ∧ v ∈ devs := by
  intro ds
  induction ds with
  | nil =>
    intro yss h v hv
    simp only [List.mapM_nil, pure, Option.some.injEq] at h
    subst h
    simp at hv
  | cons d rest ih =>
    intro yss h v hv
    rw [List.mapM_cons] at h
    cases hd : dayEvs sch d with
    | none => rw [hd] at h; simp at h
    | some y =>
      rw [hd] at h
      cases hr : rest.mapM (dayEvs sch) with
      | none => rw [hr] at h; simp at h
      | some ys =>
        rw [hr] at h
        simp only [Option.bind_eq_bind, Option.some_bind, pure,
          Option.some.injEq] at h
        subst h
        simp only [List.flatten_cons, List.mem_append] at hv
        rcases hv with hv | hv
        · exact ⟨d, by simp, y, hd, hv⟩
        · obtain ⟨d', hd', devs, hdevs, hvdevs⟩ := ih hr v hv
          exact ⟨d', by simp [hd'], devs, hdevs, hvdevs⟩

/-- Counting over a successful descriptor traversal decomposes as a sum
over the visited dates. -/
theorem mapM_dayEvs_countP {sch : Schedule} (p : Ev → Bool) :
    ∀ {ds : List Date} {yss : List (List Ev)},
      ds.mapM (dayEvs sch) = some yss →
      yss.flatten.countP p =
        (ds.map (fun d => (((dayEvs sch d).getD []).countP p))).sum := by
  intro ds
  induction ds with
  | nil =>
    intro yss h
    simp only [List.mapM_nil, pure, Option.some.injEq] at h
    subst h
    simp
  | cons d rest ih =>
    intro yss h
    rw [List.mapM_cons] at h
    cases hd : dayEvs sch d with
    | none => rw [hd] at h; simp at h
    | some y =>
      rw [hd] at h
      cases hr : rest.mapM (dayEvs sch) with
      | none => rw [hr] at h; simp at h
      | some ys =>
        rw [hr] at h
        simp only [Option.bind_eq_bind, Option.some_bind, pure,
          Option.some.injEq] at h
        subst h
        simp only [List.flatten_cons, List.countP_append, List.map_cons,
          List.sum_cons, hd, Option.getD_some]
        rw [ih hr]

/-- A line of the rendering belongs to the block of some descriptor. -/
theorem mem_render {now : String} {evs : List Ev} {line : String} :
    line ∈ render now evs ↔ ∃ v ∈ evs, line ∈ evBlock now v := by
  unfold render
  simp [List.mem_flatten]

/-- Counting a line over the rendering decomposes over the blocks. -/
theorem count_render (now : String) (evs : List Ev) (x : String) :
    (render now evs).count x =
      (evs.map (fun v => (evBlock now v).count x)).sum := by
  unfold render
  induction evs with
  | nil => simp
  | cons v rest ih => simp [List.count_append, ih]

/-- Case analysis on the nine lines of one event block. -/
theorem mem_evBlock {now : String} {v : Ev} {line : String}
    (h : line ∈ evBlock now v) :
    line = "BEGIN:VEVENT" ∨
    line = "UID:" ++ sanitize_uid (evUid v) ∨
    line = "DTSTAMP:" ++ now ∨
    line = "DTSTART:" ++ fmtDT v.date v.sh 0 ∨
    line = "DTEND:" ++ fmtDT v.date v.eh 0 ∨
    line = "SUMMARY:" ++ v.loc ∨
    line = "LOCATION:" ++ v.loc ∨
    line = "X-APPLE-TRAVEL-ADVISORY-BEHAVIOR:DISABLED" ∨
    line = "END:VEVENT" := by
  simpa [evBlock, create_event] using h

/-- Descriptors of one day carry that date, one of the three session
windows, and a weekday date. -/
theorem dayEvs_shape {sch : Schedule} {d : Date} {devs : List Ev}
    (h : dayEvs sch d = some devs) :
    ∀ v ∈ devs, v.date = d ∧ pyWeekday d < 5 ∧
      ((v.sh = 8 ∧ v.eh = 17) ∨ (v.sh = 8 ∧ v.eh = 12) ∨
        (v.sh = 13 ∧ v.eh = 17)) := by
  unfold dayEvs at h
  intro v hv
  split at h
  · rename_i h5
    split at h
    · obtain rfl := Option.some.inj h
      simp at hv
    · split at h
      · obtain rfl := Option.some.inj h
        simp at hv
      · split at h
        · split at h
          · simp at h
          · obtain rfl := Option.some.inj h
            simp only [List.mem_singleton] at hv
            subst hv
            simp [h5]
        · obtain rfl := Option.some.inj h
          simp only [List.mem_map] at hv
          obtain ⟨sl, _, rfl⟩ := hv
          by_cases hsl : (sl.1 == "AM") = true
          · simp [hsl, h5]
          · simp [hsl, h5]
  · obtain rfl := Option.some.inj h
    simp at hv

/-- Left cancellation for string append. -/
theorem append_left_cancel_iff (p a b : String) : p ++ a = p ++ b ↔ a = b := by
  constructor
  · intro h
    have hd := congrArg String.data h
    rw [data_append, data_append] at hd
    exact string_eq_of_data (List.append_cancel_left hd)
  · intro h
    rw [h]

/-- A weekend date contributes no descriptors. -/
theorem dayEvs_weekend {sch : Schedule} {d : Date}
    (h5 : ¬ pyWeekday d < 5) : dayEvs sch d = some [] := by
  unfold dayEvs
  rw [if_neg h5]

/-- A weekday date whose week is missing from the template contributes no
descriptors. -/
theorem dayEvs_noweek {sch : Schedule} {d : Date} (h5 : pyWeekday d < 5)
    (hw : pyGet sch (Int.ofNat (get_week_number_in_month d)) = none) :
    dayEvs sch d = some [] := by
  unfold dayEvs
  rw [if_pos h5]
  simp only [hw]

/-- A weekday date whose weekday is missing from its week's entry
contributes no descriptors. -/
theorem dayEvs_noday {sch : Schedule} {d : Date} {dd : DayDict}
    (h5 : pyWeekday d < 5)
    (hw : pyGet sch (Int.ofNat (get_week_number_in_month d)) = some dd)
    (hdn : pyGet dd (weekdayName (pyWeekday d)) = none) :
    dayEvs sch d = some [] := by
  unfold dayEvs
  rw [if_pos h5]
  simp only [hw, hdn]

/-- The merged branch: equal `"AM"` and `"PM"` values yield the single
8:00–17:00 descriptor. -/
theorem dayEvs_merged {sch : Schedule} {d : Date} {dd : DayDict}
    {ss : Sessions} {L : String} (h5 : pyWeekday d < 5)
    (hw : pyGet sch (Int.ofNat (get_week_number_in_month d)) = some dd)
    (hdn : pyGet dd (weekdayName (pyWeekday d)) = some ss)
    (ham : pyGet ss "AM" = some L) (hpm : pyGet ss "PM" = some L) :
    dayEvs sch d = some [⟨d, 8, 17, L⟩] := by
  unfold dayEvs
  rw [if_pos h5]
  simp only [hw, hdn, ham, hpm, beq_self_eq_true, if_true]

/-- The `KeyError` case: an entry whose `"AM"` and `"PM"` lookups both
miss (equal as `None`) raises. -/
theorem dayEvs_keyErr {sch : Schedule} {d : Date} {dd : DayDict}
    {ss : Sessions} (h5 : pyWeekday d < 5)
    (hw : pyGet sch (Int.ofNat (get_week_number_in_month d)) = some dd)
    (hdn : pyGet dd (weekdayName (pyWeekday d)) = some ss)
    (ham : pyGet ss "AM" = none) (hpm : pyGet ss "PM" = none) :
    dayEvs sch d = none := by
  unfold dayEvs
  rw [if_pos h5]
  simp only [hw, hdn, ham, hpm, beq_self_eq_true, if_true]

/-- The split branch: distinct `"AM"` and `"PM"` values yield one
descriptor per binding of the session map, in its order. -/
theorem dayEvs_split {sch : Schedule} {d : Date} {dd : DayDict}
    {ss : Sessions} (h5 : pyWeekday d < 5)
    (hw : pyGet sch (Int.ofNat (get_week_number_in_month d)) = some dd)
    (hdn : pyGet dd (weekdayName (pyWeekday d)) = some ss)
    (hne : pyGet ss "AM" ≠ pyGet ss "PM") :
    dayEvs sch d = some (ss.map (fun sl =>
      if sl.1 == "AM" then ⟨d, 8, 12, sl.2⟩ else ⟨d, 13, 17, sl.2⟩)) := by
  unfold dayEvs
  rw [if_pos h5]
  simp only [hw, hdn]
  rw [if_neg (by simpa [beq_iff_eq] using hne)]

/-- Number of lines of one block equal to a given `DTSTART` line. -/
theorem evBlock_count_dtstart (now : String) (v : Ev) (t : String) :
    (evBlock now v).count ("DTSTART:" ++ t) =
      if fmtDT v.date v.sh 0 = t then 1 else 0 := by
  have hB : ¬ ("BEGIN:VEVENT" : String) = "DTSTART:" ++ t := by
    rw [← append_empty_str "BEGIN:VEVENT"]
    exact append_ne_append "" t 0 (by decide) (by decide) (by decide)
  have hU : ¬ "UID:" ++ sanitize_uid (evUid v) = "DTSTART:" ++ t :=
    append_ne_append _ t 0 (by decide) (by decide) (by decide)
  have hP : ¬ "DTSTAMP:" ++ now = "DTSTART:" ++ t :=
    append_ne_append _ t 5 (by decide) (by decide) (by decide)
  have hE : ¬ "DTEND:" ++ fmtDT v.date v.eh 0 = "DTSTART:" ++ t :=
    append_ne_append _ t 2 (by decide) (by decide) (by decide)
  have hS : ¬ "SUMMARY:" ++ v.loc = "DTSTART:" ++ t :=
    append_ne_append _ t 0 (by decide) (by decide) (by decide)
  have hL : ¬ "LOCATION:" ++ v.loc = "DTSTART:" ++ t :=
    append_ne_append _ t 0 (by decide) (by decide) (by decide)
  have hX : ¬ ("X-APPLE-TRAVEL-ADVISORY-BEHAVIOR:DISABLED" : String) =
      "DTSTART:" ++ t := by
    rw [← append_empty_str "X-APPLE-TRAVEL-ADVISORY-BEHAVIOR:DISABLED"]
    exact append_ne_append "" t 0 (by decide) (by decide) (by decide)
  have hEnd : ¬ ("END:VEVENT" : String) = "DTSTART:" ++ t := by
    rw [← append_empty_str "END:VEVENT"]
    exact append_ne_append "" t 0 (by decide) (by decide) (by decide)
  unfold evBlock create_event
  simp only [List.count_cons, List.count_nil, beq_iff_eq,
    append_left_cancel_iff, if_neg hB, if_neg hU, if_neg hP, if_neg hE,
    if_neg hS, if_neg hL, if_neg hX, if_neg hEnd]
  omega

/-- Number of lines of one block equal to a given `DTEND` line. -/
theorem evBlock_count_dtend (now : String) (v : Ev) (t : String) :
    (evBlock now v).count ("DTEND:" ++ t) =
      if fmtDT v.date v.eh 0 = t then 1 else 0 := by
  have hB : ¬ ("BEGIN:VEVENT" : String) = "DTEND:" ++ t := by
    rw [← append_empty_str "BEGIN:VEVENT"]
    exact append_ne_append "" t 0 (by decide) (by decide) (by decide)
  have hU : ¬ "UID:" ++ sanitize_uid (evUid v) = "DTEND:" ++ t :=
    append_ne_append _ t 0 (by decide) (by decide) (by decide)
  have hP : ¬ "DTSTAMP:" ++ now = "DTEND:" ++ t :=
    append_ne_append _ t 2 (by decide) (by decide) (by decide)
  have hSt : ¬ "DTSTART:" ++ fmtDT v.date v.sh 0 = "DTEND:" ++ t :=
    append_ne_append _ t 2 (by decide) (by decide) (by decide)
  have hS : ¬ "SUMMARY:" ++ v.loc = "DTEND:" ++ t :=
    append_ne_append _ t 0 (by decide) (by decide) (by decide)
  have hL : ¬ "LOCATION:" ++ v.loc = "DTEND:" ++ t :=
    append_ne_append _ t 0 (by decide) (by decide) (by decide)
  have hX : ¬ ("X-APPLE-TRAVEL-ADVISORY-BEHAVIOR:DISABLED" : String) =
      "DTEND:" ++ t := by
    rw [← append_empty_str "X-APPLE-TRAVEL-ADVISORY-BEHAVIOR:DISABLED"]
    exact append_ne_append "" t 0 (by decide) (by decide) (by decide)
  have hEnd : ¬ ("END:VEVENT" : String) = "DTEND:" ++ t := by
    rw [← append_empty_str "END:VEVENT"]
    exact append_ne_append "" t 1 (by decide) (by decide) (by decide)
  unfold evBlock create_event
  simp only [List.count_cons, List.count_nil, beq_iff_eq,
    append_left_cancel_iff, if_neg hB, if_neg hU, if_neg hP, if_neg hSt,
    if_neg hS, if_neg hL, if_neg hX, if_neg hEnd]
  omega

/-- Descriptors of a visited date all appear in the traversal result. -/
theorem mapM_dayEvs_mem_rev {sch : Schedule} :
    ∀ {ds : List Date} {yss : List (List Ev)},
      ds.mapM (dayEvs sch) = some yss →
      ∀ d ∈ ds, ∀ {devs : List Ev}, dayEvs sch d = some devs →
        ∀ v ∈ devs, v ∈ yss.flatten := by
  intro ds
  induction ds with
  | nil =>
    intro yss h d hd
    simp at hd
  | cons d0 rest ih =>
    intro yss h d hd devs hdevs v hv
    rw [List.mapM_cons] at h
    cases hd0 : dayEvs sch d0 with
    | none => rw [hd0] at h; simp at h
    | some y =>
      rw [hd0] at h
      cases hr : rest.mapM (dayEvs sch) with
      | none => rw [hr] at h; simp at h
      | some ys =>
        rw [hr] at h
        simp only [Option.bind_eq_bind, Option.some_bind, pure,
          Option.some.injEq] at h
        subst h
        simp only [List.mem_cons] at hd
        rcases hd with rfl | hd
        · have : devs = y := by
            rw [hd0] at hdevs
            exact (Option.some.inj hdevs).symm
          subst this
          simp [List.flatten_cons, hv]
        · have := ih hr d hd hdevs v hv
          simp [List.flatten_cons, this]

/-- Counting a `DTSTART` line over a rendering counts the descriptors
whose start hour formats to the given timestamp. -/
theorem count_dtstart_render (now : String) (evs : List Ev) (t : String) :
    (render now evs).count ("DTSTART:" ++ t) =
      evs.countP (fun v => fmtDT v.date v.sh 0 == t) := by
  rw [count_render]
  induction evs with
  | nil => simp
  | cons v rest ih =>
    rw [List.map_cons, List.sum_cons, List.countP_cons,
      evBlock_count_dtstart, ih]
    by_cases hc : fmtDT v.date v.sh 0 = t
    · rw [if_pos hc, if_pos (by simp [hc])]
      omega
    · rw [if_neg hc, if_neg (by simp [hc])]
      omega

/-- Counting a `DTEND` line over a rendering counts the descriptors
whose end hour formats to the given timestamp. -/
theorem count_dtend_render (now : String) (evs : List Ev) (t : String) :
    (render now evs).count ("DTEND:" ++ t) =
      evs.countP (fun v => fmtDT v.date v.eh 0 == t) := by
  rw [count_render]
  induction evs with
  | nil => simp
  | cons v rest ih =>
    rw [List.map_cons, List.sum_cons, List.countP_cons,
      evBlock_count_dtend, ih]
    by_cases hc : fmtDT v.date v.eh 0 = t
    · rw [if_pos hc, if_pos (by simp [hc])]
      omega
    · rw [if_neg hc, if_neg (by simp [hc])]
      omega

/-- The sum of a 0/1 indicator of one element equals the element's
multiplicity. -/
theorem sum_indicator_count {γ : Type} [DecidableEq γ] (ds : List γ)
    (a0 : γ) (f : γ → Nat)
    (hf : ∀ x ∈ ds, f x = if x = a0 then 1 else 0) :
    (ds.map f).sum = ds.count a0 := by
  induction ds with
  | nil => simp
  | cons a rest ih =>
    rw [List.map_cons, List.sum_cons, List.count_cons]
    rw [hf a (by simp), ih (fun x hx => hf x (by simp [hx]))]
    by_cases ha : a = a0
    · have hbeq : (a == a0) = true := by
        simp only [beq_iff_eq]
        exact ha
      rw [if_pos ha, if_pos hbeq]
      omega
    · have hbeq : ¬ (a == a0) = true := by
        simp only [beq_iff_eq]
        exact ha
      rw [if_neg ha, if_neg hbeq]
      omega

/-- The shape of every descriptor of a successful run: a valid weekday
date of the visited range and one of the three session windows. -/
theorem allEvs_shape {sch : Schedule} {s e : Date} {evs : List Ev}
    (hall : ∀ x ∈ rangeDates s e, ValidDate x)
    (h : allEvs sch s e = some evs) :
    ∀ v ∈ evs, v.date ∈ rangeDates s e ∧ ValidDate v.date ∧
      pyWeekday v.date < 5 ∧
      ((v.sh = 8 ∧ v.eh = 17) ∨ (v.sh = 8 ∧ v.eh = 12) ∨
        (v.sh = 13 ∧ v.eh = 17)) := by
  unfold allEvs at h
  cases hm : (rangeDates s e).mapM (dayEvs sch) with
  | none => rw [hm] at h; simp at h
  | some yss =>
    rw [hm] at h
    simp only [Option.map_some', Option.some.injEq] at h
    subst h
    intro v hv
    obtain ⟨d, hd, devs, hdevs, hvd⟩ := mapM_dayEvs_mem hm v hv
    obtain ⟨hdate, h5, hwin⟩ := dayEvs_shape hdevs v hvd
    subst hdate
    exact ⟨hd, hall _ hd, h5, hwin⟩

/-- C5: for every calendar date, `get_week_number_in_month` returns
`floor((day_of_month - 1) / 7) + 1`, so days 1–7 fall in week 1, 8–14 in
week 2, 15–21 in week 3, 22–28 in week 4 and 29–31 in week 5. -/
theorem C5_week_of_month (d : Date) (h : ValidDate d) :
    get_week_number_in_month d = (d.day - 1) / 7 + 1 ∧
    (d.day ≤ 7 → get_week_number_in_month d = 1) ∧
    (8 ≤ d.day → d.day ≤ 14 → get_week_number_in_month d = 2) ∧
    (15 ≤ d.day → d.day ≤ 21 → get_week_number_in_month d = 3) ∧
    (22 ≤ d.day → d.day ≤ 28 → get_week_number_in_month d = 4) ∧
    (29 ≤ d.day → get_week_number_in_month d = 5) := by
  obtain ⟨hy1, hy2, hm1, hm2, hd1, hd2⟩ := h
  have hdm := daysInMonth_le d.year d.month
  have key : get_week_number_in_month d = (d.day - 1) / 7 + 1 := by
    unfold get_week_number_in_month rataDie
    dsimp only
    omega
  refine ⟨key, ?_, ?_, ?_, ?_, ?_⟩ <;> intros <;> rw [key] <;> omega

/-- Witness for C5 at 2025-10-17, a day in week 3 of its month. -/
theorem C5_week_of_month_witness :
    get_week_number_in_month ⟨2025, 10, 17⟩ = (17 - 1) / 7 + 1 ∧
    get_week_number_in_month ⟨2025, 10, 17⟩ = 3 :=
  ⟨(C5_week_of_month ⟨2025, 10, 17⟩ (by decide)).1,
   (C5_week_of_month ⟨2025, 10, 17⟩ (by decide)).2.2.2.1 (by decide)
     (by decide)⟩

/-- C1 (code bug): a weekday whose template entry has neither an `"AM"`
nor a `"PM"` key makes `generate_events` raise `KeyError('AM')` instead of
emitting zero events: `sessions.get("AM") == sessions.get("PM")` holds as
`None == None`, and `sessions["AM"]` then raises. Templates built by
`build_schedule_from_df` contain such empty entries for every weekday
without a filled cell, so the bug fires on them (2025-10-07 is the
Tuesday of week 1). -/
theorem C1_keyError_on_empty_entry :
    generate_events ⟨2025, 10, 6⟩ ⟨2025, 10, 6⟩ [(1, [("Mon", [])])] "T" =
      .error (PyError.keyError "AM") ∧
    build_schedule_from_df [⟨"1", "AM", "X", "", "", "", ""⟩] =
      .ok [(1, [("Mon", [("AM", "X")]), ("Tues", []), ("Wed", []),
        ("Thur", []), ("Fri", [])])] ∧
    generate_events ⟨2025, 10, 7⟩ ⟨2025, 10, 7⟩
      [(1, [("Mon", [("AM", "X")]), ("Tues", []), ("Wed", []),
        ("Thur", []), ("Fri", [])])] "T" =
      .error (PyError.keyError "AM") := by
  refine ⟨rfl, rfl, rfl⟩

/-- C9 (code bug): a week cell that fails integer conversion makes
`build_schedule_from_df` raise the low-level `ValueError` coming from
`int(row["Week"])`; no `MalformedInputError` exists in the program. -/
theorem C9_valueError_on_bad_week :
    build_schedule_from_df [⟨"abc", "AM", "X", "", "", "", ""⟩] =
      .error (PyError.valueError "abc") := rfl

/-- C4: for every template and every Saturday or Sunday date `d` of the
inclusive range, a successful `generate_events` run emits no `DTSTART` or
`DTEND` line whose timestamp lies on `d`. -/
theorem C4_weekends_empty (schedule : Schedule) (s e d : Date)
    (now : String) (lines : List String)
    (hall : ∀ x ∈ rangeDates s e, ValidDate x)
    (hd : ValidDate d)
    (hlo : rataDie s ≤ rataDie d) (hhi : rataDie d ≤ rataDie e)
    (hwk : 5 ≤ pyWeekday d)
    (hok : generate_events s e schedule now = Except.ok lines) :
    ∀ h mi : Nat, ("DTSTART:" ++ fmtDT d h mi) ∉ lines ∧
      ("DTEND:" ++ fmtDT d h mi) ∉ lines := by
  have hge := generate_events_eq s e schedule now
  rw [hok] at hge
  cases hA : allEvs schedule s e with
  | none => rw [hA] at hge; simp at hge
  | some evs =>
    rw [hA] at hge
    have hlines : lines = render now evs := Except.ok.inj hge
    subst hlines
    intro h mi
    constructor
    · rw [← List.count_eq_zero, count_dtstart_render]
      rw [List.countP_eq_zero]
      intro v hv
      simp only [beq_iff_eq]
      intro hfmt
      obtain ⟨_, hvv, h5, _⟩ := allEvs_shape hall hA v hv
      obtain ⟨hdate, _, _⟩ := fmtDT_components hvv hd hfmt
      rw [hdate] at h5
      omega
    · rw [← List.count_eq_zero, count_dtend_render]
      rw [List.countP_eq_zero]
      intro v hv
      simp only [beq_iff_eq]
      intro hfmt
      obtain ⟨_, hvv, h5, _⟩ := allEvs_shape hall hA v hv
      obtain ⟨hdate, _, _⟩ := fmtDT_components hvv hd hfmt
      rw [hdate] at h5
      omega

/-- Witness for C4: Saturday 2025-10-04 inside the range Fri 2025-10-03 to
Mon 2025-10-06 receives no event lines. -/
theorem C4_weekends_empty_witness :
    ("DTSTART:" ++ fmtDT ⟨2025, 10, 4⟩ 8 0) ∉
      (["BEGIN:VEVENT", "UID:20251003T130000-Fschedule", "DTSTAMP:T",
        "DTSTART:20251003T130000", "DTEND:20251003T170000", "SUMMARY:F",
        "LOCATION:F", "X-APPLE-TRAVEL-ADVISORY-BEHAVIOR:DISABLED",
        "END:VEVENT", "BEGIN:VEVENT", "UID:20251006T080000-Aschedule",
        "DTSTAMP:T", "DTSTART:20251006T080000", "DTEND:20251006T120000",
        "SUMMARY:A", "LOCATION:A",
        "X-APPLE-TRAVEL-ADVISORY-BEHAVIOR:DISABLED", "END:VEVENT"] :
        List String) ∧
    ("DTEND:" ++ fmtDT ⟨2025, 10, 4⟩ 8 0) ∉
      (["BEGIN:VEVENT", "UID:20251003T130000-Fschedule", "DTSTAMP:T",
        "DTSTART:20251003T130000", "DTEND:20251003T170000", "SUMMARY:F",
        "LOCATION:F", "X-APPLE-TRAVEL-ADVISORY-BEHAVIOR:DISABLED",
        "END:VEVENT", "BEGIN:VEVENT", "UID:20251006T080000-Aschedule",
        "DTSTAMP:T", "DTSTART:20251006T080000", "DTEND:20251006T120000",
        "SUMMARY:A", "LOCATION:A",
        "X-APPLE-TRAVEL-ADVISORY-BEHAVIOR:DISABLED", "END:VEVENT"] :
        List String) :=
  C4_weekends_empty [(1, [("Mon", [("AM", "A")]), ("Fri", [("PM", "F")])])]
    ⟨2025, 10, 3⟩ ⟨2025, 10, 6⟩ ⟨2025, 10, 4⟩ "T" _
    (by decide) (by decide) (by decide) (by decide) (by decide) rfl 8 0

set_option maxHeartbeats 1000000 in
/-- C2: a weekday date of the range whose template entry binds both
`"AM"` and `"PM"` to the same non-empty label yields exactly one event
for that date, spanning 08:00–17:00, with that label. -/
theorem C2_merged_full_day (schedule : Schedule) (s e d : Date)
    (dd : DayDict) (ss : Sessions) (L now : String) (lines : List String)
    (hall : ∀ x ∈ rangeDates s e, ValidDate x)
    (hmem : d ∈ rangeDates s e)
    (h5 : pyWeekday d < 5)
    (hw : pyGet schedule (Int.ofNat (get_week_number_in_month d)) = some dd)
    (hdn : pyGet dd (weekdayName (pyWeekday d)) = some ss)
    (ham : pyGet ss "AM" = some L)
    (hpm : pyGet ss "PM" = some L)
    (hL : L ≠ "")
    (hok : generate_events s e schedule now = Except.ok lines) :
    (create_event now (fmtDT d 8 0 ++ "-" ++ L ++ "@schedule")
      ⟨d, 8, 0⟩ ⟨d, 17, 0⟩ L) <:+: lines ∧
    lines.count ("DTSTART:" ++ fmtDT d 8 0) = 1 ∧
    (∀ h mi : Nat, h < 24 → mi < 60 →
      ("DTSTART:" ++ fmtDT d h mi) ∈ lines → h = 8 ∧ mi = 0) := by
  have hvd : ValidDate d := hall d hmem
  have hday : dayEvs schedule d = some [⟨d, 8, 17, L⟩] :=
    dayEvs_merged h5 hw hdn ham hpm
  have hge := generate_events_eq s e schedule now
  rw [hok] at hge
  cases hA : allEvs schedule s e with
  | none => rw [hA] at hge; simp at hge
  | some evs =>
  rw [hA] at hge
  have hlines : lines = render now evs := Except.ok.inj hge
  subst hlines
  unfold allEvs at hA
  cases hm : (rangeDates s e).mapM (dayEvs schedule) with
  | none => rw [hm] at hA; simp at hA
  | some yss =>
  rw [hm] at hA
  simp only [Option.map_some', Option.some.injEq] at hA
  subst hA
  have hv0 : (⟨d, 8, 17, L⟩ : Ev) ∈ yss.flatten :=
    mapM_dayEvs_mem_rev hm d hmem hday _ (by simp)
  refine ⟨?_, ?_, ?_⟩
  · have hb := List.infix_of_mem_flatten (List.mem_map_of_mem (evBlock now) hv0)
    show evBlock now ⟨d, 8, 17, L⟩ <:+: render now yss.flatten
    exact hb
  · rw [count_dtstart_render, mapM_dayEvs_countP _ hm]
    rw [sum_indicator_count _ d _ ?hf]
    · exact List.count_eq_one_of_mem (dateSeq_nodup _ _ hall) hmem
    case hf =>
      intro x hx
      by_cases hxd : x = d
      · subst hxd
        rw [if_pos rfl, hday]
        simp
      · rw [if_neg hxd]
        cases hdx : dayEvs schedule x with
        | none => simp
        | some devs =>
          simp only [Option.getD_some]
          rw [List.countP_eq_zero]
          intro v hvv
          simp only [beq_iff_eq]
          intro hfmt
          obtain ⟨hdate, _, _⟩ := dayEvs_shape hdx v hvv
          have hvv' : ValidDate v.date := by
            rw [hdate]
            exact hall x hx
          obtain ⟨hd2, _, _⟩ := fmtDT_components hvv' hvd hfmt
          exact hxd (by rw [← hdate, hd2])
  · intro h mi hh hmi hmem2
    have hpos : 0 < (render now yss.flatten).count
        ("DTSTART:" ++ fmtDT d h mi) := List.count_pos_iff.mpr hmem2
    rw [count_dtstart_render] at hpos
    obtain ⟨v, hv, hp⟩ := List.countP_pos_iff.mp hpos
    simp only [beq_iff_eq] at hp
    obtain ⟨d', hd', devs, hdevs, hvd'⟩ := mapM_dayEvs_mem hm v hv
    obtain ⟨hdate, _, _⟩ := dayEvs_shape hdevs v hvd'
    have hvalid' : ValidDate v.date := by
      rw [hdate]
      exact hall _ hd'
    obtain ⟨hdd, hhh, hmm⟩ := fmtDT_components hvalid' hvd hp
    have hd'd : d' = d := by rw [← hdate, hdd]
    subst hd'd
    rw [hday] at hdevs
    have hdevseq : devs = [⟨d', 8, 17, L⟩] := Option.some.inj hdevs.symm
    subst hdevseq
    have hveq : v = ⟨d', 8, 17, L⟩ := by simpa using hvd'
    subst hveq
    simp only at hhh hmm
    exact ⟨by omega, by omega⟩

/-- Witness for C2: Monday 2025-10-06 with `AM = PM = "RoomA"`. -/
theorem C2_merged_full_day_witness :
    (create_event "T" (fmtDT ⟨2025, 10, 6⟩ 8 0 ++ "-" ++ "RoomA" ++
      "@schedule") ⟨⟨2025, 10, 6⟩, 8, 0⟩ ⟨⟨2025, 10, 6⟩, 17, 0⟩ "RoomA") <:+:
      ["BEGIN:VEVENT", "UID:20251006T080000-RoomAschedule", "DTSTAMP:T",
        "DTSTART:20251006T080000", "DTEND:20251006T170000",
        "SUMMARY:RoomA", "LOCATION:RoomA",
        "X-APPLE-TRAVEL-ADVISORY-BEHAVIOR:DISABLED", "END:VEVENT"] ∧
    (["BEGIN:VEVENT", "UID:20251006T080000-RoomAschedule", "DTSTAMP:T",
        "DTSTART:20251006T080000", "DTEND:20251006T170000",
        "SUMMARY:RoomA", "LOCATION:RoomA",
        "X-APPLE-TRAVEL-ADVISORY-BEHAVIOR:DISABLED", "END:VEVENT"] :
      List String).count ("DTSTART:" ++ fmtDT ⟨2025, 10, 6⟩ 8 0) = 1 ∧
    (∀ h mi : Nat, h < 24 → mi < 60 →
      ("DTSTART:" ++ fmtDT ⟨2025, 10, 6⟩ h mi) ∈
        (["BEGIN:VEVENT", "UID:20251006T080000-RoomAschedule", "DTSTAMP:T",
          "DTSTART:20251006T080000", "DTEND:20251006T170000",
          "SUMMARY:RoomA", "LOCATION:RoomA",
          "X-APPLE-TRAVEL-ADVISORY-BEHAVIOR:DISABLED", "END:VEVENT"] :
          List String) → h = 8 ∧ mi = 0) :=
  C2_merged_full_day
    [(1, [("Mon", [("AM", "RoomA"), ("PM", "RoomA")])])]
    ⟨2025, 10, 6⟩ ⟨2025, 10, 6⟩ ⟨2025, 10, 6⟩
    [("Mon", [("AM", "RoomA"), ("PM", "RoomA")])]
    [("AM", "RoomA"), ("PM", "RoomA")] "RoomA" "T" _
    (by decide) (by decide) (by decide) (by decide) (by decide) (by decide)
    (by decide) (by decide) rfl

/-- Distinct hours below 100 format to distinct timestamps. -/
theorem fmtDT_hour_ne {d : Date} (hvd : ValidDate d) {h1 h2 : Nat}
    (hh1 : h1 < 100) (hh2 : h2 < 100) (hne : h1 ≠ h2) :
    fmtDT d h1 0 ≠ fmtDT d h2 0 := by
  intro hc
  obtain ⟨_, hh, _⟩ := fmtDT_components hvd hvd hc
  omega

/-- The split branch's 08:00 descriptors are counted by the `"AM"` keys. -/
theorem countP_descr_am (d : Date) (hvd : ValidDate d) (ss : Sessions) :
    ((ss.map (fun sl => if sl.1 == "AM" then (⟨d, 8, 12, sl.2⟩ : Ev)
        else ⟨d, 13, 17, sl.2⟩)).countP
      (fun v => fmtDT v.date v.sh 0 == fmtDT d 8 0)) =
      (ss.map Prod.fst).count "AM" := by
  have h138 := fmtDT_hour_ne hvd (by omega : (13 : Nat) < 100)
    (by omega : (8 : Nat) < 100) (by omega)
  induction ss with
  | nil => simp
  | cons sl rest ih =>
    rw [List.map_cons, List.countP_cons, List.map_cons, List.count_cons, ih]
    by_cases hk : (sl.1 == "AM") = true
    · rw [if_pos hk, if_pos hk]
      simp
    · rw [if_neg hk, if_neg hk]
      have hp : ¬ (fmtDT (⟨d, 13, 17, sl.2⟩ : Ev).date
          (⟨d, 13, 17, sl.2⟩ : Ev).sh 0 == fmtDT d 8 0) = true := by
        simp only [beq_iff_eq]
        exact h138
      rw [if_neg hp]

/-- The split branch's 13:00 descriptors are counted by the `"PM"` keys,
for session maps whose keys are drawn from `{"AM", "PM"}`. -/
theorem countP_descr_pm (d : Date) (hvd : ValidDate d) (ss : Sessions)
    (hsub : ∀ k ∈ ss.map Prod.fst, k = "AM" ∨ k = "PM") :
    ((ss.map (fun sl => if sl.1 == "AM" then (⟨d, 8, 12, sl.2⟩ : Ev)
        else ⟨d, 13, 17, sl.2⟩)).countP
      (fun v => fmtDT v.date v.sh 0 == fmtDT d 13 0)) =
      (ss.map Prod.fst).count "PM" := by
  have h813 := fmtDT_hour_ne hvd (by omega : (8 : Nat) < 100)
    (by omega : (13 : Nat) < 100) (by omega)
  induction ss with
  | nil => simp
  | cons sl rest ih =>
    rw [List.map_cons, List.countP_cons, List.map_cons, List.count_cons,
      ih (fun k hk => hsub k (by simp [hk]))]
    rcases hsub sl.1 (by simp) with hk | hk
    · have hbeq : (sl.1 == "AM") = true := by simp [hk]
      rw [if_pos hbeq]
      have hp : ¬ (fmtDT (⟨d, 8, 12, sl.2⟩ : Ev).date
          (⟨d, 8, 12, sl.2⟩ : Ev).sh 0 == fmtDT d 13 0) = true := by
        simp only [beq_iff_eq]
        exact h813
      rw [if_neg hp]
      have : ¬ (sl.1 == "PM") = true := by simp [hk]
      rw [if_neg this]
    · have hbeq : ¬ (sl.1 == "AM") = true := by simp [hk]
      rw [if_neg hbeq]
      have hp : (fmtDT (⟨d, 13, 17, sl.2⟩ : Ev).date
          (⟨d, 13, 17, sl.2⟩ : Ev).sh 0 == fmtDT d 13 0) = true := by
        simp
      rw [if_pos hp]
      have : (sl.1 == "PM") = true := by simp [hk]
      rw [if_pos this]

/-- A key with a successful lookup occurs exactly once among nodup keys. -/
theorem keys_count_one {ss : Sessions} {k v : String}
    (hn : (ss.map Prod.fst).Nodup) (h : pyGet ss k = some v) :
    (ss.map Prod.fst).count k = 1 :=
  List.count_eq_one_of_mem hn
    (List.mem_map_of_mem Prod.fst (pyGet_mem h) : k ∈ ss.map Prod.fst)

/-- A key with a failing lookup does not occur among the keys. -/
theorem keys_count_zero {ss : Sessions} {k : String}
    (h : pyGet ss k = none) : (ss.map Prod.fst).count k = 0 := by
  rw [List.count_eq_zero]
  intro hmem
  have hs := pyGet_isSome_iff.mpr hmem
  rw [h] at hs
  simp at hs

/-- The sum of an indicator with value `n` at one element. -/
theorem sum_indicator_count_gen {γ : Type} [DecidableEq γ] (ds : List γ)
    (a0 : γ) (n : Nat) (f : γ → Nat)
    (hf : ∀ x ∈ ds, f x = if x = a0 then n else 0) :
    (ds.map f).sum = n * ds.count a0 := by
  induction ds with
  | nil => simp
  | cons a rest ih =>
    rw [List.map_cons, List.sum_cons, List.count_cons]
    rw [hf a (by simp), ih (fun x hx => hf x (by simp [hx]))]
    by_cases ha : a = a0
    · have hbeq : (a == a0) = true := by
        simp only [beq_iff_eq]
        exact ha
      rw [if_pos ha, if_pos hbeq]
      ring
    · have hbeq : ¬ (a == a0) = true := by
        simp only [beq_iff_eq]
        exact ha
      rw [if_neg ha, if_neg hbeq]
      ring

set_option maxHeartbeats 1000000 in
/-- C3: a weekday date of the range whose template entry has differing
`"AM"` and `"PM"` values (including one being absent) yields exactly one
event per session key present — 08:00–12:00 with the AM label, and
13:00–17:00 with the PM label — and no other event for that date. -/
theorem C3_distinct_half_days (schedule : Schedule) (s e d : Date)
    (dd : DayDict) (ss : Sessions) (now : String) (lines : List String)
    (hall : ∀ x ∈ rangeDates s e, ValidDate x)
    (hmem : d ∈ rangeDates s e)
    (h5 : pyWeekday d < 5)
    (hw : pyGet schedule (Int.ofNat (get_week_number_in_month d)) = some dd)
    (hdn : pyGet dd (weekdayName (pyWeekday d)) = some ss)
    (hnk : (ss.map Prod.fst).Nodup)
    (hsub : ∀ k ∈ ss.map Prod.fst, k = "AM" ∨ k = "PM")
    (hne : pyGet ss "AM" ≠ pyGet ss "PM")
    (hok : generate_events s e schedule now = Except.ok lines) :
    (∀ La, pyGet ss "AM" = some La →
      (create_event now (fmtDT d 8 0 ++ "-" ++ La ++ "@schedule")
        ⟨d, 8, 0⟩ ⟨d, 12, 0⟩ La) <:+: lines) ∧
    lines.count ("DTSTART:" ++ fmtDT d 8 0) =
      (if (pyGet ss "AM").isSome then 1 else 0) ∧
    (∀ Lp, pyGet ss "PM" = some Lp →
      (create_event now (fmtDT d 13 0 ++ "-" ++ Lp ++ "@schedule")
        ⟨d, 13, 0⟩ ⟨d, 17, 0⟩ Lp) <:+: lines) ∧
    lines.count ("DTSTART:" ++ fmtDT d 13 0) =
      (if (pyGet ss "PM").isSome then 1 else 0) ∧
    (∀ h mi : Nat, h < 24 → mi < 60 →
      ("DTSTART:" ++ fmtDT d h mi) ∈ lines →
      (h = 8 ∧ mi = 0) ∨ (h = 13 ∧ mi = 0)) := by
  have hvd : ValidDate d := hall d hmem
  have hday : dayEvs schedule d = some (ss.map (fun sl =>
      if sl.1 == "AM" then ⟨d, 8, 12, sl.2⟩ else ⟨d, 13, 17, sl.2⟩)) :=
    dayEvs_split h5 hw hdn hne
  have hge := generate_events_eq s e schedule now
  rw [hok] at hge
  cases hA : allEvs schedule s e with
  | none => rw [hA] at hge; simp at hge
  | some evs =>
  rw [hA] at hge
  have hlines : lines = render now evs := Except.ok.inj hge
  subst hlines
  unfold allEvs at hA
  cases hm : (rangeDates s e).mapM (dayEvs schedule) with
  | none => rw [hm] at hA; simp at hA
  | some yss =>
  rw [hm] at hA
  simp only [Option.map_some', Option.some.injEq] at hA
  subst hA
  have hcount : ∀ t : String,
      (∀ x ∈ rangeDates s e, x ≠ d →
        ((dayEvs schedule x).getD []).countP
          (fun v => fmtDT v.date v.sh 0 == t) = 0) →
      (render now yss.flatten).count ("DTSTART:" ++ t) =
        (ss.map (fun sl => if sl.1 == "AM" then (⟨d, 8, 12, sl.2⟩ : Ev)
          else ⟨d, 13, 17, sl.2⟩)).countP
            (fun v => fmtDT v.date v.sh 0 == t) := by
    intro t hother
    rw [count_dtstart_render, mapM_dayEvs_countP _ hm]
    rw [sum_indicator_count_gen _ d
      ((ss.map (fun sl => if sl.1 == "AM" then (⟨d, 8, 12, sl.2⟩ : Ev)
        else ⟨d, 13, 17, sl.2⟩)).countP
          (fun v => fmtDT v.date v.sh 0 == t)) _ ?hf]
    · have hc1 : (rangeDates s e).count d = 1 :=
        List.count_eq_one_of_mem (dateSeq_nodup _ _ hall) hmem
      rw [hc1]
      ring
    case hf =>
      intro x hx
      by_cases hxd : x = d
      · subst hxd
        rw [if_pos rfl, hday]
        rfl
      · rw [if_neg hxd]
        exact hother x hx hxd
  have hother_gen : ∀ h0 : Nat, h0 < 100 →
      ∀ x ∈ rangeDates s e, x ≠ d →
      ((dayEvs schedule x).getD []).countP
        (fun v => fmtDT v.date v.sh 0 == fmtDT d h0 0) = 0 := by
    intro h0 _ x hx hxd
    cases hdx : dayEvs schedule x with
    | none => simp
    | some devs =>
      simp only [Option.getD_some]
      rw [List.countP_eq_zero]
      intro v hvv
      simp only [beq_iff_eq]
      intro hfmt
      obtain ⟨hdate, _, _⟩ := dayEvs_shape hdx v hvv
      have hvv' : ValidDate v.date := by
        rw [hdate]
        exact hall x hx
      obtain ⟨hd2, _, _⟩ := fmtDT_components hvv' hvd hfmt
      exact hxd (by rw [← hdate, hd2])
  refine ⟨?_, ?_, ?_, ?_, ?_⟩
  · intro La hLa
    have hmemv : (⟨d, 8, 12, La⟩ : Ev) ∈ ss.map (fun sl =>
        if sl.1 == "AM" then (⟨d, 8, 12, sl.2⟩ : Ev)
        else ⟨d, 13, 17, sl.2⟩) := by
      have : ("AM", La) ∈ ss := pyGet_mem hLa
      have him := List.mem_map_of_mem (fun sl =>
        if sl.1 == "AM" then (⟨d, 8, 12, sl.2⟩ : Ev)
        else ⟨d, 13, 17, sl.2⟩) this
      simpa using him
    have hv0 : (⟨d, 8, 12, La⟩ : Ev) ∈ yss.flatten :=
      mapM_dayEvs_mem_rev hm d hmem hday _ hmemv
    have hb := List.infix_of_mem_flatten
      (List.mem_map_of_mem (evBlock now) hv0)
    show evBlock now ⟨d, 8, 12, La⟩ <:+: render now yss.flatten
    exact hb
  · rw [hcount (fmtDT d 8 0) (hother_gen 8 (by omega)),
      countP_descr_am d hvd ss]
    cases ham : pyGet ss "AM" with
    | none => rw [keys_count_zero ham]; rfl
    | some La => rw [keys_count_one hnk ham]; rfl
  · intro Lp hLp
    have hmemv : (⟨d, 13, 17, Lp⟩ : Ev) ∈ ss.map (fun sl =>
        if sl.1 == "AM" then (⟨d, 8, 12, sl.2⟩ : Ev)
        else ⟨d, 13, 17, sl.2⟩) := by
      have hpm : ("PM", Lp) ∈ ss := pyGet_mem hLp
      have him := List.mem_map_of_mem (fun sl =>
        if sl.1 == "AM" then (⟨d, 8, 12, sl.2⟩ : Ev)
        else ⟨d, 13, 17, sl.2⟩) hpm
      simpa using him
    have hv0 : (⟨d, 13, 17, Lp⟩ : Ev) ∈ yss.flatten :=
      mapM_dayEvs_mem_rev hm d hmem hday _ hmemv
    have hb := List.infix_of_mem_flatten
      (List.mem_map_of_mem (evBlock now) hv0)
    show evBlock now ⟨d, 13, 17, Lp⟩ <:+: render now yss.flatten
    exact hb
  · rw [hcount (fmtDT d 13 0) (hother_gen 13 (by omega)),
      countP_descr_pm d hvd ss hsub]
    cases hpm : pyGet ss "PM" with
    | none => rw [keys_count_zero hpm]; rfl
    | some Lp => rw [keys_count_one hnk hpm]; rfl
  · intro h mi hh hmi hmem2
    have hpos : 0 < (render now yss.flatten).count
        ("DTSTART:" ++ fmtDT d h mi) := List.count_pos_iff.mpr hmem2
    rw [count_dtstart_render] at hpos
    obtain ⟨v, hv, hp⟩ := List.countP_pos_iff.mp hpos
    simp only [beq_iff_eq] at hp
    have hA' : allEvs schedule s e = some yss.flatten := by
      unfold allEvs
      rw [hm]
      rfl
    obtain ⟨_, hvv, _, hwin⟩ := allEvs_shape hall hA' v hv
    obtain ⟨_, hhh, hmm⟩ := fmtDT_components hvv hvd hp
    rcases hwin with ⟨h8, _⟩ | ⟨h8, _⟩ | ⟨h13, _⟩
    · left
      rw [h8] at hhh
      exact ⟨by omega, by omega⟩
    · left
      rw [h8] at hhh
      exact ⟨by omega, by omega⟩
    · right
      rw [h13] at hhh
      exact ⟨by omega, by omega⟩

/-- Witness for C3: Monday 2025-10-06 with `AM = "A"`, `PM = "B"`. -/
theorem C3_distinct_half_days_witness :
    (∀ La, pyGet ([("AM", "A"), ("PM", "B")] : Sessions) "AM" = some La →
      (create_event "T" (fmtDT ⟨2025, 10, 6⟩ 8 0 ++ "-" ++ La ++
        "@schedule") ⟨⟨2025, 10, 6⟩, 8, 0⟩ ⟨⟨2025, 10, 6⟩, 12, 0⟩ La) <:+:
        ["BEGIN:VEVENT", "UID:20251006T080000-Aschedule", "DTSTAMP:T",
          "DTSTART:20251006T080000", "DTEND:20251006T120000", "SUMMARY:A",
          "LOCATION:A", "X-APPLE-TRAVEL-ADVISORY-BEHAVIOR:DISABLED",
          "END:VEVENT", "BEGIN:VEVENT", "UID:20251006T130000-Bschedule",
          "DTSTAMP:T", "DTSTART:20251006T130000", "DTEND:20251006T170000",
          "SUMMARY:B", "LOCATION:B",
          "X-APPLE-TRAVEL-ADVISORY-BEHAVIOR:DISABLED", "END:VEVENT"]) ∧
    (["BEGIN:VEVENT", "UID:20251006T080000-Aschedule", "DTSTAMP:T",
      "DTSTART:20251006T080000", "DTEND:20251006T120000", "SUMMARY:A",
      "LOCATION:A", "X-APPLE-TRAVEL-ADVISORY-BEHAVIOR:DISABLED",
      "END:VEVENT", "BEGIN:VEVENT", "UID:20251006T130000-Bschedule",
      "DTSTAMP:T", "DTSTART:20251006T130000", "DTEND:20251006T170000",
      "SUMMARY:B", "LOCATION:B",
      "X-APPLE-TRAVEL-ADVISORY-BEHAVIOR:DISABLED", "END:VEVENT"] :
      List String).count ("DTSTART:" ++ fmtDT ⟨2025, 10, 6⟩ 8 0) =
      (if (pyGet ([("AM", "A"), ("PM", "B")] : Sessions) "AM").isSome
        then 1 else 0) ∧
    (∀ Lp, pyGet ([("AM", "A"), ("PM", "B")] : Sessions) "PM" = some Lp →
      (create_event "T" (fmtDT ⟨2025, 10, 6⟩ 13 0 ++ "-" ++ Lp ++
        "@schedule") ⟨⟨2025, 10, 6⟩, 13, 0⟩ ⟨⟨2025, 10, 6⟩, 17, 0⟩ Lp) <:+:
        ["BEGIN:VEVENT", "UID:20251006T080000-Aschedule", "DTSTAMP:T",
          "DTSTART:20251006T080000", "DTEND:20251006T120000", "SUMMARY:A",
          "LOCATION:A", "X-APPLE-TRAVEL-ADVISORY-BEHAVIOR:DISABLED",
          "END:VEVENT", "BEGIN:VEVENT", "UID:20251006T130000-Bschedule",
          "DTSTAMP:T", "DTSTART:20251006T130000", "DTEND:20251006T170000",
          "SUMMARY:B", "LOCATION:B",
          "X-APPLE-TRAVEL-ADVISORY-BEHAVIOR:DISABLED", "END:VEVENT"]) ∧
    (["BEGIN:VEVENT", "UID:20251006T080000-Aschedule", "DTSTAMP:T",
      "DTSTART:20251006T080000", "DTEND:20251006T120000", "SUMMARY:A",
      "LOCATION:A", "X-APPLE-TRAVEL-ADVISORY-BEHAVIOR:DISABLED",
      "END:VEVENT", "BEGIN:VEVENT", "UID:20251006T130000-Bschedule",
      "DTSTAMP:T", "DTSTART:20251006T130000", "DTEND:20251006T170000",
      "SUMMARY:B", "LOCATION:B",
      "X-APPLE-TRAVEL-ADVISORY-BEHAVIOR:DISABLED", "END:VEVENT"] :
      List String).count ("DTSTART:" ++ fmtDT ⟨2025, 10, 6⟩ 13 0) =
      (if (pyGet ([("AM", "A"), ("PM", "B")] : Sessions) "PM").isSome
        then 1 else 0) ∧
    (∀ h mi : Nat, h < 24 → mi < 60 →
      ("DTSTART:" ++ fmtDT ⟨2025, 10, 6⟩ h mi) ∈
        (["BEGIN:VEVENT", "UID:20251006T080000-Aschedule", "DTSTAMP:T",
          "DTSTART:20251006T080000", "DTEND:20251006T120000", "SUMMARY:A",
          "LOCATION:A", "X-APPLE-TRAVEL-ADVISORY-BEHAVIOR:DISABLED",
          "END:VEVENT", "BEGIN:VEVENT", "UID:20251006T130000-Bschedule",
          "DTSTAMP:T", "DTSTART:20251006T130000", "DTEND:20251006T170000",
          "SUMMARY:B", "LOCATION:B",
          "X-APPLE-TRAVEL-ADVISORY-BEHAVIOR:DISABLED", "END:VEVENT"] :
          List String) → (h = 8 ∧ mi = 0) ∨ (h = 13 ∧ mi = 0)) :=
  C3_distinct_half_days
    [(1, [("Mon", [("AM", "A"), ("PM", "B")])])]
    ⟨2025, 10, 6⟩ ⟨2025, 10, 6⟩ ⟨2025, 10, 6⟩
    [("Mon", [("AM", "A"), ("PM", "B")])]
    [("AM", "A"), ("PM", "B")] "T" _
    (by decide) (by decide) (by decide) (by decide) (by decide) (by decide)
    (by decide) (by decide) rfl

/-- A line of a block that begins with `UID:` is the block's UID line. -/
theorem uid_line_form {now : String} {v : Ev} {line : String}
    (hmem : line ∈ evBlock now v)
    (hpre : ("UID:").data <+: line.data) :
    line = "UID:" ++ sanitize_uid (evUid v) := by
  have key : ∀ (q b : String), 0 < q.data.length →
      ("UID:").data[0]? ≠ q.data[0]? →
      ¬ ("UID:").data <+: (q ++ b).data := by
    intro q b hq hne hp
    obtain ⟨tl, htl⟩ := hp
    apply hne
    rw [data_append] at htl
    have h1 : (("UID:").data ++ tl)[0]? = ("UID:").data[0]? :=
      List.getElem?_append_left (by decide)
    have h2 : (q.data ++ b.data)[0]? = q.data[0]? :=
      List.getElem?_append_left hq
    rw [← h1, htl, h2]
  rcases mem_evBlock hmem with h|h|h|h|h|h|h|h|h
  · subst h
    rw [← append_empty_str "BEGIN:VEVENT"] at hpre
    exact absurd hpre (key _ _ (by decide) (by decide))
  · exact h
  · subst h
    exact absurd hpre (key _ _ (by decide) (by decide))
  · subst h
    exact absurd hpre (key _ _ (by decide) (by decide))
  · subst h
    exact absurd hpre (key _ _ (by decide) (by decide))
  · subst h
    exact absurd hpre (key _ _ (by decide) (by decide))
  · subst h
    exact absurd hpre (key _ _ (by decide) (by decide))
  · subst h
    rw [← append_empty_str "X-APPLE-TRAVEL-ADVISORY-BEHAVIOR:DISABLED"]
      at hpre
    exact absurd hpre (key _ _ (by decide) (by decide))
  · subst h
    rw [← append_empty_str "END:VEVENT"] at hpre
    exact absurd hpre (key _ _ (by decide) (by decide))

/-- C6 counterexample: for the label `"Café"`, Python's Unicode
`isalnum` accepts `é`, so the emitted UID line keeps a character outside
the claimed set A–Z, a–z, 0–9, hyphen, underscore — sanitization does
not remove every character outside that set. -/
theorem C6_unicode_uid_counterexample :
    ∃ l, generate_events ⟨2025, 10, 6⟩ ⟨2025, 10, 6⟩
        [(1, [("Mon", [("AM", "Café"), ("PM", "Café")])])] "T" =
      Except.ok l ∧
      "UID:20251006T080000-Caféschedule" ∈ l ∧
      'é' ∈ ("UID:20251006T080000-Caféschedule").data ∧
      claimedChar 'é' = false ∧ allowedChar 'é' = true :=
  ⟨["BEGIN:VEVENT", "UID:20251006T080000-Caféschedule", "DTSTAMP:T",
    "DTSTART:20251006T080000", "DTEND:20251006T170000", "SUMMARY:Café",
    "LOCATION:Café", "X-APPLE-TRAVEL-ADVISORY-BEHAVIOR:DISABLED",
    "END:VEVENT"], rfl, by decide, by decide, by decide, by decide⟩

/-- C6 (amended): the sanitizer keeps exactly the characters Python's
`isalnum` accepts plus hyphen and underscore (the final `strip` removes
nothing) — spaces and punctuation are removed, but non-ASCII
alphanumerics such as `é` are retained — and every event block of a
successful run carries as its `UID:` line the sanitization of that
event's own start stamp `%Y%m%dT%H%M%S`, its own label and the fixed
`@schedule` suffix: a function of the start timestamp and the label
alone. -/
theorem C6_uid_sanitized (schedule : Schedule) (s e : Date) (now : String)
    (lines : List String)
    (hok : generate_events s e schedule now = Except.ok lines) :
    (∀ str : String, sanitize_uid str =
      String.mk (str.data.filter allowedChar)) ∧
    ∃ evs : List Ev,
      lines = (evs.map (fun v =>
        ["BEGIN:VEVENT",
         "UID:" ++ sanitize_uid (fmtDT v.date v.sh 0 ++ "-" ++ v.loc ++
           "@schedule"),
         "DTSTAMP:" ++ now,
         "DTSTART:" ++ fmtDT v.date v.sh 0,
         "DTEND:" ++ fmtDT v.date v.eh 0,
         "SUMMARY:" ++ v.loc,
         "LOCATION:" ++ v.loc,
         "X-APPLE-TRAVEL-ADVISORY-BEHAVIOR:DISABLED",
         "END:VEVENT"])).flatten ∧
      ∀ v ∈ evs, ∀ c ∈ (sanitize_uid (fmtDT v.date v.sh 0 ++ "-" ++
        v.loc ++ "@schedule")).data, allowedChar c = true := by
  refine ⟨sanitize_uid_eq_filter, ?_⟩
  have hge := generate_events_eq s e schedule now
  rw [hok] at hge
  cases hA : allEvs schedule s e with
  | none => rw [hA] at hge; simp at hge
  | some evs =>
  rw [hA] at hge
  have hlines : lines = render now evs := Except.ok.inj hge
  subst hlines
  refine ⟨evs, rfl, ?_⟩
  intro v hv c hc
  rw [sanitize_uid_eq_filter] at hc
  exact List.of_mem_filter hc

/-- Witness for C6 on the merged `"Café"` run of 2025-10-06. -/
theorem C6_uid_sanitized_witness :
    (∀ str : String, sanitize_uid str =
      String.mk (str.data.filter allowedChar)) ∧
    ∃ evs : List Ev,
      ["BEGIN:VEVENT", "UID:20251006T080000-Caféschedule", "DTSTAMP:T",
       "DTSTART:20251006T080000", "DTEND:20251006T170000",
       "SUMMARY:Café", "LOCATION:Café",
       "X-APPLE-TRAVEL-ADVISORY-BEHAVIOR:DISABLED", "END:VEVENT"] =
      (evs.map (fun v =>
        ["BEGIN:VEVENT",
         "UID:" ++ sanitize_uid (fmtDT v.date v.sh 0 ++ "-" ++ v.loc ++
           "@schedule"),
         "DTSTAMP:" ++ "T",
         "DTSTART:" ++ fmtDT v.date v.sh 0,
         "DTEND:" ++ fmtDT v.date v.eh 0,
         "SUMMARY:" ++ v.loc,
         "LOCATION:" ++ v.loc,
         "X-APPLE-TRAVEL-ADVISORY-BEHAVIOR:DISABLED",
         "END:VEVENT"])).flatten ∧
      ∀ v ∈ evs, ∀ c ∈ (sanitize_uid (fmtDT v.date v.sh 0 ++ "-" ++
        v.loc ++ "@schedule")).data, allowedChar c = true :=
  C6_uid_sanitized [(1, [("Mon", [("AM", "Café"), ("PM", "Café")])])]
    ⟨2025, 10, 6⟩ ⟨2025, 10, 6⟩ "T"
    ["BEGIN:VEVENT", "UID:20251006T080000-Caféschedule", "DTSTAMP:T",
     "DTSTART:20251006T080000", "DTEND:20251006T170000",
     "SUMMARY:Café", "LOCATION:Café",
     "X-APPLE-TRAVEL-ADVISORY-BEHAVIOR:DISABLED", "END:VEVENT"] rfl

/-- Renderings with different clock stamps agree line for line except on
`DTSTAMP:` lines. -/
theorem render_forall₂ (now₁ now₂ : String) (evs : List Ev) :
    List.Forall₂ (fun a b => a = b ∨
      (("DTSTAMP:").data <+: a.data ∧ ("DTSTAMP:").data <+: b.data))
      (render now₁ evs) (render now₂ evs) := by
  induction evs with
  | nil => exact List.Forall₂.nil
  | cons v rest ih =>
    rw [show render now₁ (v :: rest) = evBlock now₁ v ++ render now₁ rest
        from by simp [render],
      show render now₂ (v :: rest) = evBlock now₂ v ++ render now₂ rest
        from by simp [render]]
    refine List.rel_append ?_ ih
    unfold evBlock create_event
    refine List.Forall₂.cons (Or.inl rfl) ?_
    refine List.Forall₂.cons (Or.inl rfl) ?_
    refine List.Forall₂.cons (Or.inr ⟨?_, ?_⟩) ?_
    · rw [data_append]
      exact List.prefix_append _ _
    · rw [data_append]
      exact List.prefix_append _ _
    refine List.Forall₂.cons (Or.inl rfl) ?_
    refine List.Forall₂.cons (Or.inl rfl) ?_
    refine List.Forall₂.cons (Or.inl rfl) ?_
    refine List.Forall₂.cons (Or.inl rfl) ?_
    refine List.Forall₂.cons (Or.inl rfl) ?_
    exact List.Forall₂.cons (Or.inl rfl) List.Forall₂.nil

/-- C8: two runs on identical inputs that differ only in the wall-clock
stamp either both raise the same error, or produce `ics_lines` lists that
agree line for line except on `DTSTAMP:` lines; `generate_ics` then joins
those lines with single newlines, so the `UID`, `DTSTART`, `DTEND`,
`SUMMARY` and `LOCATION` lines never depend on the clock. -/
theorem C8_clock_independence (s e : Date) (schedule : Schedule)
    (now₁ now₂ : String) :
    (∃ err, generate_ics_lines s e schedule now₁ = .error err ∧
      generate_ics_lines s e schedule now₂ = .error err ∧
      generate_ics s e schedule now₁ = .error err ∧
      generate_ics s e schedule now₂ = .error err) ∨
    (∃ l₁ l₂, generate_ics_lines s e schedule now₁ = .ok l₁ ∧
      generate_ics_lines s e schedule now₂ = .ok l₂ ∧
      generate_ics s e schedule now₁ = .ok (String.intercalate "\n" l₁) ∧
      generate_ics s e schedule now₂ = .ok (String.intercalate "\n" l₂) ∧
      List.Forall₂ (fun a b => a = b ∨
        (("DTSTAMP:").data <+: a.data ∧ ("DTSTAMP:").data <+: b.data))
        l₁ l₂) := by
  have h1 := generate_events_eq s e schedule now₁
  have h2 := generate_events_eq s e schedule now₂
  cases hA : allEvs schedule s e with
  | none =>
    rw [hA] at h1 h2
    left
    refine ⟨PyError.keyError "AM", ?_, ?_, ?_, ?_⟩ <;>
      simp [generate_ics_lines, generate_ics, h1, h2]
  | some evs =>
    rw [hA] at h1 h2
    right
    refine ⟨["BEGIN:VCALENDAR", "VERSION:2.0",
        "PRODID:-//Schedule Generator//EN", "CALSCALE:GREGORIAN"] ++
        render now₁ evs ++ ["END:VCALENDAR"],
      ["BEGIN:VCALENDAR", "VERSION:2.0",
        "PRODID:-//Schedule Generator//EN", "CALSCALE:GREGORIAN"] ++
        render now₂ evs ++ ["END:VCALENDAR"], ?_, ?_, ?_, ?_, ?_⟩
    · simp [generate_ics_lines, h1]
    · simp [generate_ics_lines, h2]
    · simp [generate_ics, generate_ics_lines, h1]
    · simp [generate_ics, generate_ics_lines, h2]
    · refine List.rel_append (List.rel_append ?_
        (render_forall₂ now₁ now₂ evs)) ?_
      · exact List.forall₂_same.mpr (fun x _ => Or.inl rfl)
      · exact List.forall₂_same.mpr (fun x _ => Or.inl rfl)

/-- The head surviving a `dropWhile` fails the test. -/
theorem dropWhile_head_false {p : Char → Bool} :
    ∀ (l : List Char) (c : Char),
      (l.dropWhile p).head? = some c → p c = false := by
  intro l
  induction l with
  | nil => intro c hc; simp at hc
  | cons a t ih =>
    intro c hc
    rw [List.dropWhile_cons] at hc
    by_cases hp : p a = true
    · rw [if_pos hp] at hc
      exact ih c hc
    · rw [if_neg hp] at hc
      simp only [List.head?_cons, Option.some.injEq] at hc
      rw [← hc]
      exact Bool.eq_false_iff.mpr hp

/-- `dropWhile` is idempotent. -/
theorem dropWhile_idem {p : Char → Bool} (l : List Char) :
    (l.dropWhile p).dropWhile p = l.dropWhile p := by
  cases hd : l.dropWhile p with
  | nil => rfl
  | cons c t =>
    have hc : p c = false := dropWhile_head_false l c (by rw [hd]; rfl)
    rw [List.dropWhile_cons, if_neg (by simp [hc])]

/-- `strip` is idempotent: stripping a stripped string changes nothing. -/
theorem pyStrip_idem (s : String) : pyStrip (pyStrip s) = pyStrip s := by
  unfold pyStrip
  set x := s.data.dropWhile Char.isWhitespace with hx
  set y := (x.reverse.dropWhile Char.isWhitespace).reverse with hy
  have hstep1 : y.dropWhile Char.isWhitespace = y := by
    cases hc : y with
    | nil => rfl
    | cons c t =>
      have hsuf : y.reverse <:+ x.reverse := by
        rw [hy, List.reverse_reverse]
        exact List.dropWhile_suffix _
      have hpre : y <+: x := by
        rw [← List.reverse_reverse x, ← List.reverse_reverse y] at hsuf ⊢
        exact List.reverse_suffix.mp hsuf
      obtain ⟨t2, ht2⟩ := hpre
      have hpc : Char.isWhitespace c = false := by
        apply dropWhile_head_false s.data c
        rw [← hx, ← ht2, hc]
        rfl
      rw [List.dropWhile_cons, if_neg (by simp [hpc])]
  have hstep2 : y.reverse.dropWhile Char.isWhitespace = y.reverse := by
    rw [hy, List.reverse_reverse]
    exact dropWhile_idem _
  show String.mk
      ((((String.mk y).data.dropWhile Char.isWhitespace).reverse.dropWhile
        Char.isWhitespace).reverse) = String.mk y
  rw [show (String.mk y).data = y from rfl, hstep1, hstep2,
    List.reverse_reverse]

/-- Elements after an assignment: an old binding or the new one. -/
theorem mem_pyInsert {α β : Type} [BEq α] [LawfulBEq α]
    {d : List (α × β)} {k : α} {v : β} {kv : α × β}
    (h : kv ∈ pyInsert d k v) : kv ∈ d ∨ kv = (k, v) := by
  induction d with
  | nil =>
    simp only [pyInsert, List.mem_singleton] at h
    exact Or.inr h
  | cons p rest ih =>
    obtain ⟨k', v'⟩ := p
    by_cases hk : (k' == k) = true
    · rw [pyInsert, if_pos hk] at h
      rcases List.mem_cons.mp h with rfl | hmem
      · obtain rfl : k' = k := eq_of_beq hk
        exact Or.inr rfl
      · exact Or.inl (List.mem_cons_of_mem _ hmem)
    · rw [pyInsert, if_neg hk] at h
      rcases List.mem_cons.mp h with rfl | hmem
      · exact Or.inl (List.mem_cons_self _ _)
      · rcases ih hmem with hm | he
        · exact Or.inl (List.mem_cons_of_mem _ hm)
        · exact Or.inr he

/-- One weekday-loop iteration leaves other weeks untouched. -/
theorem buildDayStep_get_ne (week : Int) (ampm : String) (row : Row)
    (sched : Schedule) (day : String) (w' : Int) (h : ¬ w' = week) :
    pyGet (buildDayStep week ampm row sched day) w' = pyGet sched w' := by
  unfold buildDayStep
  exact pyGet_insert_of_ne _ _ _ _ h

/-- The week dictionary produced by one weekday-loop iteration: the
processed day is present, other days are unchanged, and any value it
stores is an old one or a non-empty trimmed cell. -/
theorem buildDayStep_week_dict (week : Int) (ampm : String) (row : Row)
    (sched : Schedule) (day : String) :
    ∃ dd2, pyGet (buildDayStep week ampm row sched day) week = some dd2 ∧
      (pyGet dd2 day).isSome = true ∧
      (∀ day0, ¬ day0 = day →
        pyGet dd2 day0 = pyGet ((pyGet sched week).getD []) day0) ∧
      (∀ dn ss, pyGet dd2 dn = some ss → ∀ kv ∈ ss,
        (∃ ss0, pyGet ((pyGet sched week).getD []) dn = some ss0 ∧
          kv ∈ ss0) ∨
        (kv.2 ≠ "" ∧ pyStrip kv.2 = kv.2)) := by
  unfold buildDayStep
  dsimp only
  set dd := (pyGet sched week).getD [] with hdd
  set dd1 := if (pyGet dd day).isNone then pyInsert dd day [] else dd
    with hdd1
  have hdd1day : ∃ ssd, pyGet dd1 day = some ssd ∧
      (ssd = [] ∨ pyGet dd day = some ssd) := by
    rw [hdd1]
    by_cases hnone : (pyGet dd day).isNone
    · rw [if_pos hnone]
      exact ⟨[], pyGet_insert_self _ _ _, Or.inl rfl⟩
    · rw [if_neg hnone]
      cases hg : pyGet dd day with
      | none => rw [hg] at hnone; simp at hnone
      | some ssd => exact ⟨ssd, rfl, Or.inr rfl⟩
  obtain ⟨ssd, hssd, hssd_src⟩ := hdd1day
  have hdd1_ne : ∀ day0, ¬ day0 = day → pyGet dd1 day0 = pyGet dd day0 := by
    intro day0 h0
    rw [hdd1]
    by_cases hnone : (pyGet dd day).isNone
    · rw [if_pos hnone]
      exact pyGet_insert_of_ne _ _ _ _ h0
    · rw [if_neg hnone]
  by_cases hval : (pyStrip (rowCell row day) == "") = true
  · refine ⟨dd1, ?_, ?_, ?_, ?_⟩
    · rw [if_pos hval]
      exact pyGet_insert_self _ _ _
    · rw [hssd]
      rfl
    · intro day0 h0
      exact hdd1_ne day0 h0
    · intro dn ss hss kv hkv
      by_cases hdn : dn = day
      · subst hdn
        rw [hssd] at hss
        obtain rfl := Option.some.inj hss
        rcases hssd_src with rfl | hsrc
        · simp at hkv
        · exact Or.inl ⟨ssd, hsrc, hkv⟩
      · rw [hdd1_ne dn hdn] at hss
        exact Or.inl ⟨ss, hss, hkv⟩
  · refine ⟨pyInsert dd1 day (pyInsert ((pyGet dd1 day).getD []) ampm
      (pyStrip (rowCell row day))), ?_, ?_, ?_, ?_⟩
    · rw [if_neg hval]
      exact pyGet_insert_self _ _ _
    · rw [pyGet_insert_self]
      rfl
    · intro day0 h0
      rw [pyGet_insert_of_ne _ _ _ _ h0]
      exact hdd1_ne day0 h0
    · intro dn ss hss kv hkv
      by_cases hdn : dn = day
      · subst hdn
        rw [pyGet_insert_self] at hss
        obtain rfl := Option.some.inj hss
        rw [hssd] at hkv
        simp only [Option.getD_some] at hkv
        rcases mem_pyInsert hkv with hold | hnew
        · rcases hssd_src with rfl | hsrc
          · simp at hold
          · exact Or.inl ⟨ssd, hsrc, hold⟩
        · subst hnew
          refine Or.inr ⟨?_, pyStrip_idem _⟩
          simp only [beq_iff_eq] at hval
          exact hval
      · rw [pyGet_insert_of_ne _ _ _ _ hdn, hdd1_ne dn hdn] at hss
        exact Or.inl ⟨ss, hss, hkv⟩

/-- The weekday loop leaves other weeks untouched. -/
theorem foldDays_get_ne (week : Int) (ampm : String) (row : Row) :
    ∀ (days : List String) (sched : Schedule) (w' : Int), ¬ w' = week →
      pyGet (days.foldl (buildDayStep week ampm row) sched) w' =
        pyGet sched w' := by
  intro days
  induction days with
  | nil => intro sched w' _; rfl
  | cons day rest ih =>
    intro sched w' h
    rw [List.foldl_cons, ih _ _ h, buildDayStep_get_ne _ _ _ _ _ _ h]

/-- The weekday loop keeps the week key present. -/
theorem foldDays_week_some (week : Int) (ampm : String) (row : Row) :
    ∀ (days : List String) (sched : Schedule),
      (pyGet sched week).isSome = true →
      (pyGet (days.foldl (buildDayStep week ampm row) sched)
        week).isSome = true := by
  intro days
  induction days with
  | nil => intro sched h; exact h
  | cons day rest ih =>
    intro sched _
    rw [List.foldl_cons]
    apply ih
    obtain ⟨dd2, hdd2, _⟩ := buildDayStep_week_dict week ampm row sched day
    rw [hdd2]
    rfl

/-- The weekday loop preserves presence of a day in the week's dict. -/
theorem foldDays_mono (week : Int) (ampm : String) (row : Row) :
    ∀ (days : List String) (sched : Schedule) (day0 : String),
      (pyGet sched week).isSome = true →
      (∀ dd0, pyGet sched week = some dd0 →
        (pyGet dd0 day0).isSome = true) →
      ∀ dd, pyGet (days.foldl (buildDayStep week ampm row) sched) week =
        some dd → (pyGet dd day0).isSome = true := by
  intro days
  induction days with
  | nil =>
    intro sched day0 _ hpres dd hdd
    exact hpres dd hdd
  | cons day rest ih =>
    intro sched day0 hw hpres dd hdd
    rw [List.foldl_cons] at hdd
    obtain ⟨dd2, hdd2, hdaypres, hne, _⟩ :=
      buildDayStep_week_dict week ampm row sched day
    refine ih _ day0 (by rw [hdd2]; rfl) ?_ dd hdd
    intro dd0 hdd0
    rw [hdd2] at hdd0
    obtain rfl := Option.some.inj hdd0
    by_cases h0 : day0 = day
    · subst h0
      exact hdaypres
    · rw [hne day0 h0]
      cases hg : pyGet sched week with
      | none => rw [hg] at hw; simp at hw
      | some ddold =>
        simp only [Option.getD_some]
        exact hpres ddold hg

/-- Every day of the processed list ends up present in the week's dict. -/
theorem foldDays_covers (week : Int) (ampm : String) (row : Row) :
    ∀ (days : List String) (sched : Schedule) (day0 : String),
      (pyGet sched week).isSome = true → day0 ∈ days →
      ∀ dd, pyGet (days.foldl (buildDayStep week ampm row) sched) week =
        some dd → (pyGet dd day0).isSome = true := by
  intro days
  induction days with
  | nil =>
    intro sched day0 _ hmem
    simp at hmem
  | cons day rest ih =>
    intro sched day0 hw hmem dd hdd
    rw [List.foldl_cons] at hdd
    obtain ⟨dd2, hdd2, hdaypres, hne, _⟩ :=
      buildDayStep_week_dict week ampm row sched day
    rcases List.mem_cons.mp hmem with rfl | hmem'
    · refine foldDays_mono week ampm row rest _ day0
        (by rw [hdd2]; rfl) ?_ dd hdd
      intro dd0 hdd0
      rw [hdd2] at hdd0
      obtain rfl := Option.some.inj hdd0
      exact hdaypres
    · exact ih _ day0 (by rw [hdd2]; rfl) hmem' dd hdd

/-- The weekday loop preserves the stored-values invariant. -/
theorem foldDays_values (week : Int) (ampm : String) (row : Row) :
    ∀ (days : List String) (sched : Schedule), ValuesOK sched →
      ValuesOK (days.foldl (buildDayStep week ampm row) sched) := by
  intro days
  induction days with
  | nil => intro sched h; exact h
  | cons day rest ih =>
    intro sched hV
    rw [List.foldl_cons]
    apply ih
    intro w dd hdd dn ss hss kv hkv
    by_cases hw : w = week
    · subst hw
      obtain ⟨dd2, hdd2, _, _, hvals⟩ :=
        buildDayStep_week_dict w ampm row sched day
      rw [hdd2] at hdd
      obtain rfl := Option.some.inj hdd
      rcases hvals dn ss hss kv hkv with ⟨ss0, hss0, hkv0⟩ | hgood
      · cases hg : pyGet sched w with
        | none =>
          rw [hg] at hss0
          simp [pyGet] at hss0
        | some ddold =>
          rw [hg] at hss0
          simp only [Option.getD_some] at hss0
          exact hV w ddold hg dn ss0 hss0 kv hkv0
      · exact hgood
    · rw [buildDayStep_get_ne _ _ _ _ _ _ hw] at hdd
      exact hV w dd hdd dn ss hss kv hkv

/-- Processing one row completes its week and keeps all other weeks
complete. -/
theorem rowStep_complete (acc : Schedule) (week : Int) (ampm : String)
    (row : Row) (hC : WeeksComplete acc) :
    WeeksComplete (buildRowDays week ampm row
      (if (pyGet acc week).isNone then pyInsert acc week [] else acc)) := by
  intro w dd hdd day hday
  unfold buildRowDays at hdd
  by_cases hw : w = week
  · subst hw
    refine foldDays_covers w ampm row WEEKDAY_KEYS _ day ?_ hday dd hdd
    by_cases hnone : (pyGet acc w).isNone
    · rw [if_pos hnone, pyGet_insert_self]
      rfl
    · rw [if_neg hnone]
      cases hg : pyGet acc w with
      | none => rw [hg] at hnone; simp at hnone
      | some _ => rfl
  · rw [foldDays_get_ne _ _ _ _ _ _ hw] at hdd
    by_cases hnone : (pyGet acc week).isNone
    · rw [if_pos hnone, pyGet_insert_of_ne _ _ _ _ hw] at hdd
      exact hC w dd hdd day hday
    · rw [if_neg hnone] at hdd
      exact hC w dd hdd day hday

/-- Processing one row stores only non-empty trimmed values. -/
theorem rowStep_values (acc : Schedule) (week : Int) (ampm : String)
    (row : Row) (hV : ValuesOK acc) :
    ValuesOK (buildRowDays week ampm row
      (if (pyGet acc week).isNone then pyInsert acc week [] else acc)) := by
  unfold buildRowDays
  apply foldDays_values
  intro w dd hdd dn ss hss kv hkv
  by_cases hnone : (pyGet acc week).isNone
  · rw [if_pos hnone] at hdd
    by_cases hw : w = week
    · subst hw
      rw [pyGet_insert_self] at hdd
      obtain rfl := Option.some.inj hdd
      simp [pyGet] at hss
    · rw [pyGet_insert_of_ne _ _ _ _ hw] at hdd
      exact hV w dd hdd dn ss hss kv hkv
  · rw [if_neg hnone] at hdd
    exact hV w dd hdd dn ss hss kv hkv

/-- The row fold of `build_schedule_from_df` establishes both template
invariants. -/
theorem build_foldlM_inv :
    ∀ (df : List Row) (acc : Schedule), WeeksComplete acc → ValuesOK acc →
      ∀ sched,
        (df.foldlM (fun schedule row => do
          let week ← pyInt row.week
          let ampm := pyUpper (pyStrip row.ampm)
          let schedule :=
            if (pyGet schedule week).isNone then pyInsert schedule week []
            else schedule
          return buildRowDays week ampm row schedule) acc) =
          Except.ok sched →
        WeeksComplete sched ∧ ValuesOK sched := by
  intro df
  induction df with
  | nil =>
    intro acc hC hV sched h
    simp only [List.foldlM_nil] at h
    obtain rfl : acc = sched := by
      simpa [pure, Except.pure] using h
    exact ⟨hC, hV⟩
  | cons row rest ih =>
    intro acc hC hV sched h
    rw [List.foldlM_cons] at h
    cases hweek : pyInt row.week with
    | error err =>
      rw [hweek] at h
      simp [bind, Except.bind] at h
    | ok week =>
      rw [hweek] at h
      simp only [bind, Except.bind, pure, Except.pure] at h
      exact ih _ (rowStep_complete acc week _ row hC)
        (rowStep_values acc week _ row hV) sched h

/-- C10: every template built by `build_schedule_from_df` maps each week
present to a dictionary carrying all five weekday keys (empty session
maps when no cell was filled), and every stored session value is
non-empty and whitespace-trimmed. -/
theorem C10_template_invariants (df : List Row) (sched : Schedule)
    (hok : build_schedule_from_df df = Except.ok sched) :
    (∀ w dd, pyGet sched w = some dd →
      ∀ day ∈ WEEKDAY_KEYS, (pyGet dd day).isSome = true) ∧
    (∀ w dd, pyGet sched w = some dd → ∀ dn ss, pyGet dd dn = some ss →
      ∀ kv ∈ ss, kv.2 ≠ "" ∧ pyStrip kv.2 = kv.2) := by
  unfold build_schedule_from_df at hok
  have h := build_foldlM_inv df []
    (by intro w dd hdd; simp [pyGet] at hdd)
    (by intro w dd hdd; simp [pyGet] at hdd) sched hok
  exact ⟨h.1, h.2⟩

/-- Witness for C10 on a row with week `" 2 "`, session `" pm "` and a
single filled `Tues` cell `" Lab A "`. -/
theorem C10_template_invariants_witness :
    (pyGet ([("Mon", []), ("Tues", [("PM", "Lab A")]), ("Wed", []),
      ("Thur", []), ("Fri", [])] : DayDict) "Mon").isSome = true ∧
    ("PM", "Lab A").2 ≠ "" ∧ pyStrip ("PM", "Lab A").2 = ("PM", "Lab A").2 :=
  ⟨(C10_template_invariants [⟨" 2 ", " pm ", "", " Lab A ", "", "", ""⟩]
      [(2, [("Mon", []), ("Tues", [("PM", "Lab A")]), ("Wed", []),
        ("Thur", []), ("Fri", [])])] rfl).1 2
      [("Mon", []), ("Tues", [("PM", "Lab A")]), ("Wed", []),
        ("Thur", []), ("Fri", [])] rfl "Mon" (by decide),
   (C10_template_invariants [⟨" 2 ", " pm ", "", " Lab A ", "", "", ""⟩]
      [(2, [("Mon", []), ("Tues", [("PM", "Lab A")]), ("Wed", []),
        ("Thur", []), ("Fri", [])])] rfl).2 2
      [("Mon", []), ("Tues", [("PM", "Lab A")]), ("Wed", []),
        ("Thur", []), ("Fri", [])] rfl "Tues" [("PM", "Lab A")] rfl
      ("PM", "Lab A") (by decide)⟩

/-- Rendering of descriptors, with the block lines written out. -/
theorem render_explicit (now : String) (evs : List Ev) :
    render now evs = (evs.map (fun v =>
      ["BEGIN:VEVENT",
       "UID:" ++ sanitize_uid (fmtDT v.date v.sh 0 ++ "-" ++ v.loc ++
         "@schedule"),
       "DTSTAMP:" ++ now,
       "DTSTART:" ++ fmtDT v.date v.sh 0,
       "DTEND:" ++ fmtDT v.date v.eh 0,
       "SUMMARY:" ++ v.loc,
       "LOCATION:" ++ v.loc,
       "X-APPLE-TRAVEL-ADVISORY-BEHAVIOR:DISABLED",
       "END:VEVENT"])).flatten := rfl

/-- Within-day chains for relations that hold on equal dates. -/
theorem chain_of_same_date {R : Ev → Ev → Prop}
    (hR : ∀ a b : Ev, a.date = b.date → R a b) :
    ∀ (devs : List Ev) (d : Date), (∀ v ∈ devs, v.date = d) →
      List.Chain' R devs := by
  intro devs
  induction devs with
  | nil => intro d _; simp
  | cons a t ih =>
    intro d hsame
    cases t with
    | nil => simp
    | cons b t2 =>
      refine List.chain'_cons.mpr ⟨hR a b ?_, ih d ?_⟩
      · rw [hsame a (by simp), hsame b (by simp [List.mem_cons])]
      · intro v hv
        exact hsame v (by simp [List.mem_cons] at hv ⊢; tauto)

/-- One day's descriptors are chained by nonstrict date order. -/
theorem dayEvs_chain_le {sch : Schedule} :
    ∀ (d : Date) (devs : List Ev), dayEvs sch d = some devs →
      List.Chain' (fun a b => rataDie a.date ≤ rataDie b.date) devs := by
  intro d devs h
  refine chain_of_same_date (fun a b hab => by rw [hab]) devs d ?_
  intro v hv
  exact (dayEvs_shape h v hv).1

/-- One day's descriptors of an AM-first well-formed template are chained
strictly: within the date, the 08:00 block precedes the 13:00 block. -/
theorem dayEvs_chain_strict {sch : Schedule} (hOK : schedOK sch) :
    ∀ (d : Date) (devs : List Ev), dayEvs sch d = some devs →
      List.Chain' (fun a b => rataDie a.date < rataDie b.date ∨
        (a.date = b.date ∧ a.sh < b.sh)) devs := by
  intro d devs h
  unfold dayEvs at h
  split at h
  · split at h
    · obtain rfl := Option.some.inj h
      simp
    · rename_i dayDict hw
      split at h
      · obtain rfl := Option.some.inj h
        simp
      · rename_i sessions hdn
        split at h
        · split at h
          · simp at h
          · obtain rfl := Option.some.inj h
            simp
        · obtain rfl := Option.some.inj h
          have hkeys : sessKeysOK sessions := hOK _ _ hw _ _ hdn
          unfold sessKeysOK at hkeys
          rcases sessions with _ | ⟨p, _ | ⟨q, rest⟩⟩
          · simp
          · simp
          · simp only [List.map_cons, List.mem_cons, List.mem_singleton,
              List.not_mem_nil, or_false] at hkeys
            rcases hkeys with h1 | h1 | h1 | h1
            · exact absurd h1 (by simp)
            · exact absurd h1 (by simp)
            · exact absurd h1 (by simp)
            · injection h1 with hp h1
              injection h1 with hq h1
              obtain rfl : rest = [] := List.map_eq_nil_iff.mp h1
              have hqam : ¬ (q.1 == "AM") = true := by
                simp [hq]
              rw [List.map_cons, List.map_cons, List.map_nil]
              rw [if_pos (by simp [hp]), if_neg hqam]
              refine List.chain'_cons.mpr
                ⟨Or.inr ⟨rfl, show (8 : Nat) < 13 by omega⟩, by simp⟩
  · obtain rfl := Option.some.inj h
    simp

/-- An element named by `head?` belongs to the list. -/
theorem mem_of_head_opt {α : Type} {l : List α} {x : α}
    (h : l.head? = some x) : x ∈ l := by
  cases l with
  | nil => simp at h
  | cons a t =>
    simp only [List.head?_cons, Option.some.injEq] at h
    simp [h]

/-- An element named by `getLast?` belongs to the list. -/
theorem mem_of_last_opt {α : Type} {l : List α} {x : α}
    (h : l.getLast? = some x) : x ∈ l := by
  obtain ⟨hne, rfl⟩ := List.mem_getLast?_eq_getLast h
  exact List.getLast_mem hne

/-- The flattened traversal is chained for any relation that holds within
each day and across strictly later days. -/
theorem allEvs_chain_gen (sch : Schedule) (R : Ev → Ev → Prop)
    (hday : ∀ d devs, dayEvs sch d = some devs → List.Chain' R devs)
    (hcross : ∀ v w : Ev, rataDie v.date < rataDie w.date → R v w) :
    ∀ (n : Nat) (d : Date), (∀ y ∈ dateSeq d n, ValidDate y) →
      ∀ yss, (dateSeq d n).mapM (dayEvs sch) = some yss →
        List.Chain' R yss.flatten := by
  intro n
  induction n with
  | zero =>
    intro d _ yss h
    simp only [dateSeq, List.mapM_nil, pure, Option.some.injEq] at h
    subst h
    simp
  | succ n ih =>
    intro d hall yss h
    rw [show dateSeq d (n + 1) = d :: dateSeq (nextDay d) n from rfl,
      List.mapM_cons] at h
    cases hd : dayEvs sch d with
    | none => rw [hd] at h; simp at h
    | some y =>
      rw [hd] at h
      cases hr : (dateSeq (nextDay d) n).mapM (dayEvs sch) with
      | none => rw [hr] at h; simp at h
      | some ys =>
        rw [hr] at h
        simp only [Option.bind_eq_bind, Option.some_bind, pure,
          Option.some.injEq] at h
        subst h
        rw [List.flatten_cons, List.chain'_append]
        have htail : ∀ z ∈ dateSeq (nextDay d) n, ValidDate z := by
          intro z hz
          exact hall z (by simp [dateSeq, hz])
        refine ⟨hday d y hd, ih (nextDay d) htail ys hr, ?_⟩
        intro x hx z hz
        have hxmem : x ∈ y := mem_of_last_opt hx
        have hzmem : z ∈ ys.flatten := mem_of_head_opt hz
        obtain ⟨hxdate, _, _⟩ := dayEvs_shape hd x hxmem
        obtain ⟨d', hd', devs', hdevs', hzdev⟩ := mapM_dayEvs_mem hr z hzmem
        obtain ⟨hzdate, _, _⟩ := dayEvs_shape hdevs' z hzdev
        apply hcross
        rw [hxdate, hzdate]
        have h1 : rataDie (nextDay d) ≤ rataDie d' :=
          rataDie_le_of_mem_dateSeq n (nextDay d) d' hd' htail
        have h2 : rataDie (nextDay d) = rataDie d + 1 :=
          rataDie_nextDay (hall d (by simp [dateSeq]))
        omega

/-- C7 counterexample: a template whose Monday session map lists the
`"PM"` key before the `"AM"` key makes `generate_ics_lines` place the
13:00 `DTSTART` line before the 08:00 `DTSTART` line of the same day,
although both blocks are present; so the AM block does not precede the
PM block for every input. -/
theorem C7_am_before_pm_counterexample :
    ∃ l, generate_ics_lines ⟨2025, 10, 6⟩ ⟨2025, 10, 6⟩
        [(1, [("Mon", [("PM", "B"), ("AM", "A")])])] "T" = Except.ok l ∧
      ("DTSTART:" ++ fmtDT ⟨2025, 10, 6⟩ 8 0) ∈ l ∧
      List.indexOf ("DTSTART:" ++ fmtDT ⟨2025, 10, 6⟩ 13 0) l <
        List.indexOf ("DTSTART:" ++ fmtDT ⟨2025, 10, 6⟩ 8 0) l :=
  ⟨["BEGIN:VCALENDAR", "VERSION:2.0",
    "PRODID:-//Schedule Generator//EN", "CALSCALE:GREGORIAN",
    "BEGIN:VEVENT", "UID:20251006T130000-Bschedule", "DTSTAMP:T",
    "DTSTART:20251006T130000", "DTEND:20251006T170000", "SUMMARY:B",
    "LOCATION:B", "X-APPLE-TRAVEL-ADVISORY-BEHAVIOR:DISABLED",
    "END:VEVENT", "BEGIN:VEVENT", "UID:20251006T080000-Aschedule",
    "DTSTAMP:T", "DTSTART:20251006T080000", "DTEND:20251006T120000",
    "SUMMARY:A", "LOCATION:A",
    "X-APPLE-TRAVEL-ADVISORY-BEHAVIOR:DISABLED", "END:VEVENT",
    "END:VCALENDAR"], rfl, by decide, by decide⟩

/-- C7 (amended): on success, `generate_ics` joins with single newlines
the four fixed header lines, one nine-line block per emitted event in
the fixed line order of the claim, and the footer; blocks appear in
date-ascending order.  The within-day clause is corrected: inside one
day the blocks follow the session map's insertion order, and the AM
block precedes the PM block when the `"AM"` key was inserted first
(`schedOK`, the order the app's fixed AM-then-PM grid rows produce). -/
theorem C7_ics_structure (s e : Date) (schedule : Schedule) (now : String)
    (out : String) (hall : ∀ x ∈ rangeDates s e, ValidDate x)
    (hok : generate_ics s e schedule now = Except.ok out) :
    ∃ evs : List Ev,
      out = String.intercalate "\n"
        (["BEGIN:VCALENDAR", "VERSION:2.0",
          "PRODID:-//Schedule Generator//EN", "CALSCALE:GREGORIAN"] ++
         (evs.map (fun v =>
           ["BEGIN:VEVENT",
            "UID:" ++ sanitize_uid (fmtDT v.date v.sh 0 ++ "-" ++ v.loc ++
              "@schedule"),
            "DTSTAMP:" ++ now,
            "DTSTART:" ++ fmtDT v.date v.sh 0,
            "DTEND:" ++ fmtDT v.date v.eh 0,
            "SUMMARY:" ++ v.loc,
            "LOCATION:" ++ v.loc,
            "X-APPLE-TRAVEL-ADVISORY-BEHAVIOR:DISABLED",
            "END:VEVENT"])).flatten ++
         ["END:VCALENDAR"]) ∧
      (∀ v ∈ evs, ValidDate v.date ∧ pyWeekday v.date < 5) ∧
      List.Chain' (fun a b => rataDie a.date ≤ rataDie b.date) evs ∧
      (schedOK schedule →
        List.Chain' (fun a b => rataDie a.date < rataDie b.date ∨
          (a.date = b.date ∧ a.sh < b.sh)) evs) := by
  have h1 := generate_events_eq s e schedule now
  cases hA : allEvs schedule s e with
  | none =>
    rw [hA] at h1
    exfalso
    simp [generate_ics, generate_ics_lines, h1] at hok
  | some evs =>
    rw [hA] at h1
    have h2 : Except.ok (ε := PyError) (String.intercalate "\n"
        (["BEGIN:VCALENDAR", "VERSION:2.0",
          "PRODID:-//Schedule Generator//EN", "CALSCALE:GREGORIAN"] ++
         render now evs ++ ["END:VCALENDAR"])) = Except.ok out := by
      rw [← hok]
      simp [generate_ics, generate_ics_lines, h1]
    obtain rfl := Except.ok.inj h2
    cases hm : (rangeDates s e).mapM (dayEvs schedule) with
    | none =>
      unfold allEvs at hA
      rw [hm] at hA
      simp at hA
    | some yss =>
      have hflat : yss.flatten = evs := by
        unfold allEvs at hA
        rw [hm] at hA
        simpa using hA
      have hall' : ∀ y ∈ dateSeq s (rataDie e + 1 - rataDie s),
          ValidDate y := hall
      have hm' : (dateSeq s (rataDie e + 1 - rataDie s)).mapM
          (dayEvs schedule) = some yss := hm
      refine ⟨evs, ?_, ?_, ?_, ?_⟩
      · rw [render_explicit]
      · intro v hv
        obtain ⟨_, hvd, h5, _⟩ := allEvs_shape hall hA v hv
        exact ⟨hvd, h5⟩
      · rw [← hflat]
        exact allEvs_chain_gen schedule
          (fun a b => rataDie a.date ≤ rataDie b.date) dayEvs_chain_le
          (fun v w h => Nat.le_of_lt h) (rataDie e + 1 - rataDie s) s
          hall' yss hm'
      · intro hOK
        rw [← hflat]
        exact allEvs_chain_gen schedule
          (fun a b => rataDie a.date < rataDie b.date ∨
            (a.date = b.date ∧ a.sh < b.sh))
          (dayEvs_chain_strict hOK) (fun v w h => Or.inl h)
          (rataDie e + 1 - rataDie s) s hall' yss hm'

set_option maxRecDepth 10000 in
set_option maxHeartbeats 2000000 in
/-- C7 witness: the structure theorem applied to the one-day range
2025-10-06 and an AM-first Monday template. -/
theorem C7_ics_structure_witness :
    ∃ evs : List Ev,
      ("BEGIN:VCALENDAR\nVERSION:2.0\nPRODID:-//Schedule Generator//EN" ++
       "\nCALSCALE:GREGORIAN\nBEGIN:VEVENT\nUID:20251006T080000-Aschedule" ++
       "\nDTSTAMP:T\nDTSTART:20251006T080000\nDTEND:20251006T120000" ++
       "\nSUMMARY:A\nLOCATION:A\nX-APPLE-TRAVEL-ADVISORY-BEHAVIOR:DISABLED" ++
       "\nEND:VEVENT\nBEGIN:VEVENT\nUID:20251006T130000-Bschedule" ++
       "\nDTSTAMP:T\nDTSTART:20251006T130000\nDTEND:20251006T170000" ++
       "\nSUMMARY:B\nLOCATION:B\nX-APPLE-TRAVEL-ADVISORY-BEHAVIOR:DISABLED" ++
       "\nEND:VEVENT\nEND:VCALENDAR") = String.intercalate "\n"
        (["BEGIN:VCALENDAR", "VERSION:2.0",
          "PRODID:-//Schedule Generator//EN", "CALSCALE:GREGORIAN"] ++
         (evs.map (fun v =>
           ["BEGIN:VEVENT",
            "UID:" ++ sanitize_uid (fmtDT v.date v.sh 0 ++ "-" ++ v.loc ++
              "@schedule"),
            "DTSTAMP:" ++ "T",
            "DTSTART:" ++ fmtDT v.date v.sh 0,
            "DTEND:" ++ fmtDT v.date v.eh 0,
            "SUMMARY:" ++ v.loc,
            "LOCATION:" ++ v.loc,
            "X-APPLE-TRAVEL-ADVISORY-BEHAVIOR:DISABLED",
            "END:VEVENT"])).flatten ++
         ["END:VCALENDAR"]) ∧
      (∀ v ∈ evs, ValidDate v.date ∧ pyWeekday v.date < 5) ∧
      List.Chain' (fun a b => rataDie a.date ≤ rataDie b.date) evs ∧
      (schedOK [(1, [("Mon", [("AM", "A"), ("PM", "B")])])] →
        List.Chain' (fun a b => rataDie a.date < rataDie b.date ∨
          (a.date = b.date ∧ a.sh < b.sh)) evs) :=
  C7_ics_structure ⟨2025, 10, 6⟩ ⟨2025, 10, 6⟩
    [(1, [("Mon", [("AM", "A"), ("PM", "B")])])] "T"
    ("BEGIN:VCALENDAR\nVERSION:2.0\nPRODID:-//Schedule Generator//EN" ++
     "\nCALSCALE:GREGORIAN\nBEGIN:VEVENT\nUID:20251006T080000-Aschedule" ++
     "\nDTSTAMP:T\nDTSTART:20251006T080000\nDTEND:20251006T120000" ++
     "\nSUMMARY:A\nLOCATION:A\nX-APPLE-TRAVEL-ADVISORY-BEHAVIOR:DISABLED" ++
     "\nEND:VEVENT\nBEGIN:VEVENT\nUID:20251006T130000-Bschedule" ++
     "\nDTSTAMP:T\nDTSTART:20251006T130000\nDTEND:20251006T170000" ++
     "\nSUMMARY:B\nLOCATION:B\nX-APPLE-TRAVEL-ADVISORY-BEHAVIOR:DISABLED" ++
     "\nEND:VEVENT\nEND:VCALENDAR") (by decide) (by decide)

end CreateSchedule
